import Mathlib

/-!
# Trade-initiation chaincode (`part2_works_with_sdk_v1.0.0.go`)

A shallow embedding of the chaincode `SimpleChaincode` and of the pieces of the Go
runtime library it calls (`strconv.Atoi`, `strconv.Itoa`, `strconv.FormatInt`,
`strings.ToLower`, `json.Marshal` and `json.Unmarshal` on `[]string`), followed by
theorems about its operations `init`, `Run`, `Query`, `read`, `write` and
`create_and_submit_trade`.

Conventions of the embedding.

* Go strings and byte slices are Lean `String`s (text made of Unicode scalar values).
  A `nil` byte slice is `none : Option String`.
* A Go `([]byte, error)` result is an `Except String (Option String)`: the error
  message, or the returned bytes.
* The ledger behind `shim.ChaincodeStub` is explicit state.  Every operation takes the
  stub and returns the stub it leaves behind.
* `time.Now().UnixNano()` is an explicit argument `now`.
* `fmt.Println` output is not modelled.
-/

namespace Chaincode

/-! ## Characters -/

/-- The double quote character (code 34). -/
def dquote : Char := Char.ofNat 34

/-- The backslash character (code 92). -/
def backslash : Char := Char.ofNat 92

/-- The opening brace (code 123). -/
def lbrace : Char := Char.ofNat 123

/-- The closing brace (code 125). -/
def rbrace : Char := Char.ofNat 125

/-- ASCII decimal digit test. -/
def isDigit (c : Char) : Bool := decide (48 ≤ c.toNat) && decide (c.toNat ≤ 57)

/-! ## `strconv` -/

/-- Value of a run of decimal digits, most significant first, continuing from `acc`;
`none` when some character is not a digit. -/
def digitsValue : List Char → Nat → Option Nat
  | [], acc => some acc
  | c :: cs, acc => if isDigit c then digitsValue cs (acc * 10 + (c.toNat - 48)) else none

/-- The tail of Go `strconv.ParseInt(s, 10, 0)` on a 64-bit platform, after the sign has
been taken off: the digits must be one or more decimal digits, and the magnitude must
not pass the cutoff `1 << 63` (negative) or `1 << 63 - 1` (non-negative).  `none` stands
for a non-nil error (syntax or range). -/
def parseMagnitude (neg : Bool) (ds : List Char) : Option Int :=
  match ds with
  | [] => none
  | _ :: _ =>
    match digitsValue ds 0 with
    | none => none
    | some n =>
      if neg then (if n ≤ 2 ^ 63 then some (- (n : Int)) else none)
      else (if n ≤ 2 ^ 63 - 1 then some (n : Int) else none)

/-- Go `strconv.Atoi` on a 64-bit platform: an optional sign, then one or more decimal
digits, the value being in the range of `int`.  `none` stands for a non-nil error; the
chaincode only tests the error against `nil`. -/
def Atoi (s : String) : Option Int :=
  match s.data with
  | [] => none
  | c :: rest =>
    if c = '-' then parseMagnitude true rest
    else if c = '+' then parseMagnitude false rest
    else parseMagnitude false (c :: rest)

/-- The decimal digit character of `n % 10`. -/
def digitChar (n : Nat) : Char := Char.ofNat (48 + n % 10)

/-- Decimal digits of `n`, most significant first (`fuel` bounds the number of digits). -/
def natDigits : Nat → Nat → List Char
  | 0, _ => []
  | fuel + 1, n => if n < 10 then [digitChar n] else natDigits fuel (n / 10) ++ [digitChar n]

/-- Go `strconv.FormatInt(i, 10)`: a minus sign for negative numbers, then the decimal
digits of the magnitude. -/
def FormatInt (i : Int) : String :=
  if i < 0 then String.mk ('-' :: natDigits (i.natAbs + 1) i.natAbs)
  else String.mk (natDigits (i.natAbs + 1) i.natAbs)

/-- Go `strconv.Itoa(i)`, which is `FormatInt(int64(i), 10)`. -/
def Itoa (i : Int) : String := FormatInt i

/-! ## `strings.ToLower` -/

/-- Lower-casing of one rune.  ASCII letters are handled as Go's `unicode.ToLower` does
for runes up to `MaxASCII`; other runes go through `unicodeLower`, standing for the
Unicode case tables of Go's library. -/
def toLowerRune (unicodeLower : Char → Char) (c : Char) : Char :=
  if c.toNat < 128 then
    if 65 ≤ c.toNat ∧ c.toNat ≤ 90 then Char.ofNat (c.toNat + 32) else c
  else unicodeLower c

/-- Go `strings.ToLower`: every rune mapped to lower case. -/
def ToLower (unicodeLower : Char → Char) (s : String) : String :=
  String.mk (s.data.map (toLowerRune unicodeLower))

/-! ## `encoding/json`: the scanner and decoder -/

/-- A decoded JSON document.  A number keeps its literal text. -/
inductive JSONValue where
  | null : JSONValue
  | bool (b : Bool) : JSONValue
  | number (literal : String) : JSONValue
  | string (s : String) : JSONValue
  | array (elems : List JSONValue) : JSONValue
  | object (members : List (String × JSONValue)) : JSONValue

/-- JSON insignificant white space: space, tab, carriage return, line feed. -/
def isSpace (c : Char) : Bool :=
  decide (c.toNat = 32) || decide (c.toNat = 9) || decide (c.toNat = 13) || decide (c.toNat = 10)

/-- Drop leading white space. -/
def skipSpace : List Char → List Char
  | [] => []
  | c :: cs => if isSpace c then skipSpace cs else c :: cs

/-- Value of a hexadecimal digit. -/
def hexVal (c : Char) : Option Nat :=
  if 48 ≤ c.toNat ∧ c.toNat ≤ 57 then some (c.toNat - 48)
  else if 97 ≤ c.toNat ∧ c.toNat ≤ 102 then some (c.toNat - 87)
  else if 65 ≤ c.toNat ∧ c.toNat ≤ 70 then some (c.toNat - 55)
  else none

/-- Go `getu4`: the code unit of a `\uXXXX` escape at the head of the input. -/
def getu4 (s : List Char) : Option Nat :=
  match s with
  | b :: u :: c1 :: c2 :: c3 :: c4 :: _ =>
    if b = backslash ∧ u = 'u' then
      match hexVal c1, hexVal c2, hexVal c3, hexVal c4 with
      | some h1, some h2, some h3, some h4 => some (((h1 * 16 + h2) * 16 + h3) * 16 + h4)
      | _, _, _, _ => none
    else none
  | _ => none

/-- Go `utf16.IsSurrogate`. -/
def isSurrogate (r : Nat) : Bool := decide (0xd800 ≤ r) && decide (r < 0xe000)

/-- The Unicode replacement character U+FFFD. -/
def replacementChar : Char := Char.ofNat 0xfffd

/-- Go `utf16.DecodeRune`: the rune of a surrogate pair, U+FFFD when the pair is not a
high surrogate followed by a low one. -/
def decodeSurrogates (r1 r2 : Nat) : Char :=
  if 0xd800 ≤ r1 ∧ r1 < 0xdc00 ∧ 0xdc00 ≤ r2 ∧ r2 < 0xe000 then
    Char.ofNat ((r1 - 0xd800) * 1024 + (r2 - 0xdc00) + 0x10000)
  else replacementChar

/-- The character denoted by a one-letter escape, `none` for an invalid escape letter. -/
def simpleEscape (e : Char) : Option Char :=
  if e = dquote then some dquote
  else if e = backslash then some backslash
  else if e = '/' then some '/'
  else if e = 'b' then some (Char.ofNat 8)
  else if e = 'f' then some (Char.ofNat 12)
  else if e = 'n' then some (Char.ofNat 10)
  else if e = 'r' then some (Char.ofNat 13)
  else if e = 't' then some (Char.ofNat 9)
  else none

/-- Scan and unquote a JSON string literal whose opening quote has been consumed:
the decoded text and the input after the closing quote.  Control characters and bad
escapes are syntax errors; a `\u` escape that is half of a broken surrogate pair
decodes to U+FFFD, as in Go's `unquote`. -/
def scanString : Nat → List Char → Option (List Char × List Char)
  | 0, _ => none
  | fuel + 1, cs =>
    match cs with
    | [] => none
    | c :: rest =>
      if c = dquote then some ([], rest)
      else if c = backslash then
        match rest with
        | [] => none
        | e :: rest1 =>
          if e = 'u' then
            match getu4 cs with
            | none => none
            | some rr =>
              if isSurrogate rr then
                match getu4 (rest1.drop 4) with
                | some rr1 =>
                  if decodeSurrogates rr rr1 = replacementChar then
                    (scanString fuel (rest1.drop 4)).map (fun p => (replacementChar :: p.1, p.2))
                  else
                    (scanString fuel (rest1.drop 10)).map
                      (fun p => (decodeSurrogates rr rr1 :: p.1, p.2))
                | none =>
                  (scanString fuel (rest1.drop 4)).map (fun p => (replacementChar :: p.1, p.2))
              else (scanString fuel (rest1.drop 4)).map (fun p => (Char.ofNat rr :: p.1, p.2))
          else
            match simpleEscape e with
            | none => none
            | some d => (scanString fuel rest1).map (fun p => (d :: p.1, p.2))
      else if c.toNat < 32 then none
      else (scanString fuel rest).map (fun p => (c :: p.1, p.2))

/-- The longest run of decimal digits at the head of the input, and what follows. -/
def scanDigits : List Char → List Char × List Char
  | [] => ([], [])
  | c :: cs => if isDigit c then ((scanDigits cs).1.cons c, (scanDigits cs).2) else ([], c :: cs)

/-- Integer part of a JSON number: `0`, or a non-zero digit followed by digits. -/
def scanIntPart : List Char → Option (List Char × List Char)
  | [] => none
  | c :: cs =>
    if c = '0' then some (['0'], cs)
    else if isDigit c then some (c :: (scanDigits cs).1, (scanDigits cs).2)
    else none

/-- Optional fraction of a JSON number: a dot followed by one or more digits. -/
def scanFraction : List Char → Option (List Char × List Char)
  | [] => some ([], [])
  | c :: cs =>
    if c = '.' then
      match scanDigits cs with
      | ([], _) => none
      | (d :: ds, rest) => some ('.' :: d :: ds, rest)
    else some ([], c :: cs)

/-- Optional exponent of a JSON number: `e` or `E`, an optional sign, one or more digits. -/
def scanExponent : List Char → Option (List Char × List Char)
  | [] => some ([], [])
  | c :: cs =>
    if c = 'e' ∨ c = 'E' then
      match cs with
      | [] => none
      | s :: cs1 =>
        if s = '+' ∨ s = '-' then
          match scanDigits cs1 with
          | ([], _) => none
          | (d :: ds, rest) => some (c :: s :: d :: ds, rest)
        else
          match scanDigits cs with
          | ([], _) => none
          | (d :: ds, rest) => some (c :: d :: ds, rest)
    else some ([], c :: cs)

/-- A JSON number literal at the head of the input: its text and what follows. -/
def scanNumber (cs : List Char) : Option (List Char × List Char) :=
  let signed : List Char × List Char :=
    match cs with
    | [] => ([], [])
    | c :: rest => if c = '-' then (['-'], rest) else ([], c :: rest)
  match scanIntPart signed.2 with
  | none => none
  | some (ip, r1) =>
    match scanFraction r1 with
    | none => none
    | some (fp, r2) =>
      match scanExponent r2 with
      | none => none
      | some (ep, r3) => some (signed.1 ++ ip ++ fp ++ ep, r3)

/-- Consume the literal `word` at the head of the input. -/
def scanWord (word : List Char) (cs : List Char) : Option (List Char) :=
  if cs.take word.length = word then some (cs.drop word.length) else none

/-- Elements of a non-empty array after the opening bracket, values separated by commas,
up to and including the closing bracket.  `pv` parses one value. -/
def parseElems (pv : List Char → Option (JSONValue × List Char)) :
    Nat → List Char → Option (List JSONValue × List Char)
  | 0, _ => none
  | n + 1, cs =>
    match pv (skipSpace cs) with
    | none => none
    | some (v, rest) =>
      match skipSpace rest with
      | [] => none
      | c :: rest1 =>
        if c = ',' then (parseElems pv n rest1).map (fun p => (v :: p.1, p.2))
        else if c = ']' then some ([v], rest1)
        else none

/-- Members of a non-empty object after the opening brace: `"key" : value` pairs
separated by commas, up to and including the closing brace. -/
def parseMembers (pv : List Char → Option (JSONValue × List Char)) :
    Nat → List Char → Option (List (String × JSONValue) × List Char)
  | 0, _ => none
  | n + 1, cs =>
    match skipSpace cs with
    | [] => none
    | q :: afterQuote =>
      if q = dquote then
        match scanString (afterQuote.length + 1) afterQuote with
        | none => none
        | some (key, r1) =>
          match skipSpace r1 with
          | [] => none
          | colon :: r2 =>
            if colon = ':' then
              match pv (skipSpace r2) with
              | none => none
              | some (v, r3) =>
                match skipSpace r3 with
                | [] => none
                | c :: r4 =>
                  if c = ',' then
                    (parseMembers pv n r4).map (fun p => ((String.mk key, v) :: p.1, p.2))
                  else if c = rbrace then some ([(String.mk key, v)], r4)
                  else none
            else none
      else none

/-- One JSON value at the head of the input (no leading white space): the value and
the rest of the input.  `depth` bounds the nesting of arrays and objects. -/
def parseValue : Nat → List Char → Option (JSONValue × List Char)
  | 0, _ => none
  | depth + 1, cs =>
    match cs with
    | [] => none
    | c :: rest =>
      if c = lbrace then
        match skipSpace rest with
        | [] => none
        | c1 :: rest1 =>
          if c1 = rbrace then some (JSONValue.object [], rest1)
          else (parseMembers (parseValue depth) (rest.length + 1) (c1 :: rest1)).map
            (fun p => (JSONValue.object p.1, p.2))
      else if c = '[' then
        match skipSpace rest with
        | [] => none
        | c1 :: rest1 =>
          if c1 = ']' then some (JSONValue.array [], rest1)
          else (parseElems (parseValue depth) (rest.length + 1) (c1 :: rest1)).map
            (fun p => (JSONValue.array p.1, p.2))
      else if c = dquote then
        (scanString (rest.length + 1) rest).map (fun p => (JSONValue.string (String.mk p.1), p.2))
      else if c = '-' ∨ isDigit c then
        (scanNumber cs).map (fun p => (JSONValue.number (String.mk p.1), p.2))
      else if c = 't' then
        (scanWord ['t', 'r', 'u', 'e'] cs).map (fun r => (JSONValue.bool true, r))
      else if c = 'f' then
        (scanWord ['f', 'a', 'l', 's', 'e'] cs).map (fun r => (JSONValue.bool false, r))
      else if c = 'n' then
        (scanWord ['n', 'u', 'l', 'l'] cs).map (fun r => (JSONValue.null, r))
      else none

/-- Decode a whole JSON document: one value with optional white space around it.
`none` is a syntax error.  The nesting bound is the length of the input, which no
document can exceed. -/
def parseJSON (data : String) : Option JSONValue :=
  match parseValue (data.data.length + 1) (skipSpace data.data) with
  | none => none
  | some (v, rest) => if skipSpace rest = [] then some v else none

/-- A Go `[]string`: `none` is the `nil` slice, `some xs` a non-nil slice. -/
abbrev StringSlice := Option (List String)

/-- The elements of a slice, none for the `nil` slice. -/
def StringSlice.elems (s : StringSlice) : List String := s.getD []

/-- Go's builtin `append(s, x)` with one element: never `nil`. -/
def append (s : StringSlice) (x : String) : StringSlice := some (s.elems ++ [x])

/-- What decoding a JSON value into a `string` slot holding "" leaves in the slot: the
text of a JSON string, and "" for everything else (`null` leaves the slot alone, any
other kind is skipped with an `UnmarshalTypeError`). -/
def stringOfElem : JSONValue → String
  | JSONValue.string s => s
  | _ => ""

/-- Whether decoding a JSON value into a `string` slot records an `UnmarshalTypeError`. -/
def elemMismatch : JSONValue → Bool
  | JSONValue.string _ => false
  | JSONValue.null => false
  | _ => true

/-- Go `json.Unmarshal(data, &v)` for `var v []string` holding `nil`, as at the one call
in `create_and_submit_trade`: the value of `v` afterwards, and whether an error is
returned.  A syntax error or a document that is not an array or `null` leaves `v`
untouched; an array fills one slot per element, also for elements that are not strings. -/
def jsonUnmarshalStrings (data : Option String) : StringSlice × Bool :=
  match parseJSON (data.getD "") with
  | none => (none, true)
  | some JSONValue.null => (none, false)
  | some (JSONValue.array elems) => (some (elems.map stringOfElem), elems.any elemMismatch)
  | some _ => (none, true)

/-! ## `encoding/json`: the encoder -/

/-- Lower-case hexadecimal digit of `n % 16` (Go's `hex` table). -/
def hexDigit (n : Nat) : Char :=
  if n % 16 < 10 then Char.ofNat (48 + n % 16) else Char.ofNat (87 + n % 16)

/-- How Go's `encodeState.string` writes one rune: ASCII runes from space on are
copied, except the quote, the backslash and `<`, `>`, `&`; quote and backslash get a
backslash; line feed, carriage return and tab become `\n`, `\r`, `\t`; the other ASCII
runes become `\u00XX`; U+2028 and U+2029 become a `\u202X` escape; every other
rune is copied. -/
def escapeChar (c : Char) : List Char :=
  if c.toNat < 128 then
    if 32 ≤ c.toNat ∧ c ≠ backslash ∧ c ≠ dquote ∧ c ≠ '<' ∧ c ≠ '>' ∧ c ≠ '&' then [c]
    else if c = backslash ∨ c = dquote then [backslash, c]
    else if c.toNat = 10 then [backslash, 'n']
    else if c.toNat = 13 then [backslash, 'r']
    else if c.toNat = 9 then [backslash, 't']
    else [backslash, 'u', '0', '0', hexDigit (c.toNat / 16), hexDigit c.toNat]
  else if c.toNat = 0x2028 ∨ c.toNat = 0x2029 then
    [backslash, 'u', '2', '0', '2', hexDigit c.toNat]
  else [c]

/-- The escaped body of a string literal, without the surrounding quotes. -/
def escapeChars : List Char → List Char
  | [] => []
  | c :: cs => escapeChar c ++ escapeChars cs

/-- A string as a quoted JSON string literal. -/
def encodeString (s : String) : List Char := dquote :: (escapeChars s.data ++ [dquote])

/-- The elements of an array, comma-separated, followed by the closing bracket. -/
def encodeElems : List String → List Char
  | [] => [']']
  | [x] => encodeString x ++ [']']
  | x :: y :: rest => encodeString x ++ ',' :: encodeElems (y :: rest)

/-- Go `json.Marshal` of a `[]string`: `null` for the `nil` slice, otherwise the array
of the quoted elements.  Marshalling a `[]string` never fails. -/
def jsonMarshalStrings : StringSlice → String
  | none => "null"
  | some xs => String.mk ('[' :: encodeElems xs)

/-! ## The ledger behind `shim.ChaincodeStub` -/

/-- A call made to the stub. -/
inductive StubOp where
  | get (key : String) : StubOp
  | put (key : String) (value : String) : StubOp

/-- The chaincode's view of the ledger.  `state` is the world state; `getErr key` and
`putErr key` are the errors `GetState` and `PutState` return for that key (`none`: the
operation succeeds); `ops` lists the calls made so far, oldest first. -/
structure ChaincodeStub where
  state : String → Option String
  getErr : String → Option String
  putErr : String → Option String
  ops : List StubOp

/-- Stub method `GetState(key)`: the stored bytes (`nil` when the key has no value), or
the stub's read error. -/
def ChaincodeStub.GetState (stub : ChaincodeStub) (key : String) :
    Except String (Option String) × ChaincodeStub :=
  match stub.getErr key with
  | some err => (Except.error err, { stub with ops := stub.ops ++ [StubOp.get key] })
  | none => (Except.ok (stub.state key), { stub with ops := stub.ops ++ [StubOp.get key] })

/-- Stub method `PutState(key, value)`: the returned error (`none` is `nil`).  A failed
put writes nothing. -/
def ChaincodeStub.PutState (stub : ChaincodeStub) (key : String) (value : String) :
    Option String × ChaincodeStub :=
  match stub.putErr key with
  | some err => (some err, { stub with ops := stub.ops ++ [StubOp.put key value] })
  | none =>
    (none, { stub with
      state := fun k => if k = key then some value else stub.state k
      ops := stub.ops ++ [StubOp.put key value] })

/-! ## The chaincode -/

/-- The result of a chaincode function: Go's `([]byte, error)`. -/
abbrev Response := Except String (Option String)

/-- Name for the key/value that will store a list of all known trades. -/
def tradeIndexStr : String := "_tradeindex"

/-- Go `time.Millisecond`, in nanoseconds. -/
def Millisecond : Int := 1000000

/-- Go `time.Nanosecond`. -/
def Nanosecond : Int := 1

/-- Source `makeTimestamp`, with the clock reading `time.Now().UnixNano()` as argument.
Go's integer division truncates toward zero. -/
def makeTimestamp (now : Int) : Int := now.tdiv (Millisecond.tdiv Nanosecond)

/-- Source `init`: reset all the things. -/
def init (stub : ChaincodeStub) (args : List String) : Response × ChaincodeStub :=
  if args.length ≠ 1 then
    (Except.error "Incorrect number of arguments. Expecting 1", stub)
  else
    match Atoi (args.getD 0 "") with
    | none => (Except.error "Expecting integer value for asset holding", stub)
    | some Aval =>
      match stub.PutState "abc" (Itoa Aval) with
      | (some err, stub1) => (Except.error err, stub1)
      | (none, stub1) =>
        match stub1.PutState tradeIndexStr (jsonMarshalStrings none) with
        | (some err, stub2) => (Except.error err, stub2)
        | (none, stub2) => (Except.ok none, stub2)

/-- Source `read`: read a variable from chaincode state. -/
def read (stub : ChaincodeStub) (args : List String) : Response × ChaincodeStub :=
  if args.length ≠ 1 then
    (Except.error "Incorrect number of arguments. Expecting timestamp of the var to query", stub)
  else
    match stub.GetState (args.getD 0 "") with
    | (Except.error _, stub1) =>
      (Except.error ("\x7b\"Error\":\"Failed to get state for " ++ args.getD 0 "" ++ "\"\x7d"), stub1)
    | (Except.ok valAsbytes, stub1) => (Except.ok valAsbytes, stub1)

/-- Source `write`: write variable into chaincode state. -/
def write (stub : ChaincodeStub) (args : List String) : Response × ChaincodeStub :=
  if args.length ≠ 2 then
    (Except.error
      "Incorrect number of arguments. Expecting 2. timestamp of the variable and value to set",
      stub)
  else
    match stub.PutState (args.getD 0 "") (args.getD 1 "") with
    | (some err, stub1) => (Except.error err, stub1)
    | (none, stub1) => (Except.ok none, stub1)

/-- The text stored for a trade: the concatenation built in `create_and_submit_trade`. -/
def tradeString (tradedate valuedate operation : String) (quantity : Int)
    (security price counterparty user timestampAsString : String)
    (settled needsrevision : Int) : String :=
  "\x7b\"tradedate\": \"" ++ tradedate ++ "\", \"valuedate\": \"" ++ valuedate
    ++ "\", \"operation\": \"" ++ operation ++ "\", \"quantity\": " ++ Itoa quantity
    ++ ", \"security\": \"" ++ security ++ "\", \"price\": \"" ++ price
    ++ "\", \"counterparty\": \"" ++ counterparty ++ "\", \"user\": \"" ++ user
    ++ "\", \"timestamp\": \"" ++ timestampAsString ++ "\", \"settled\": \"" ++ Itoa settled
    ++ "\", \"needsrevision\": \"" ++ Itoa needsrevision ++ "\"\x7d"

/-- Source `create_and_submit_trade`.  The error of the last `PutState` and the error of
`json.Unmarshal` are dropped, as in the source. -/
def create_and_submit_trade (unicodeLower : Char → Char) (now : Int) (stub : ChaincodeStub)
    (args : List String) : Response × ChaincodeStub :=
  if args.length ≠ 11 then
    (Except.error "Incorrect number of arguments. Expecting 11", stub)
  else
    let tradedate := ToLower unicodeLower (args.getD 0 "")
    let valuedate := ToLower unicodeLower (args.getD 1 "")
    let operation := ToLower unicodeLower (args.getD 2 "")
    match Atoi (args.getD 3 "") with
    | none => (Except.error "4th argument must be a numeric string", stub)
    | some quantity =>
      let security := ToLower unicodeLower (args.getD 4 "")
      let price := ToLower unicodeLower (args.getD 5 "")
      let counterparty := ToLower unicodeLower (args.getD 6 "")
      let user := ToLower unicodeLower (args.getD 7 "")
      let timestamp := makeTimestamp now
      let timestampAsString := FormatInt timestamp
      match Atoi (args.getD 9 "") with
      | none => (Except.error "9th argument must be a numeric string, either 0 or 1", stub)
      | some settled =>
        match Atoi (args.getD 10 "") with
        | none => (Except.error "10th argument must be a numeric string, either 0 or 1", stub)
        | some needsrevision =>
          let str := tradeString tradedate valuedate operation quantity security price
            counterparty user timestampAsString settled needsrevision
          match stub.PutState timestampAsString str with
          | (some err, stub1) => (Except.error err, stub1)
          | (none, stub1) =>
            match stub1.GetState tradeIndexStr with
            | (Except.error _, stub2) => (Except.error "Failed to get trade index", stub2)
            | (Except.ok tradesAsBytes, stub2) =>
              let tradeIndex := (jsonUnmarshalStrings tradesAsBytes).1
              let tradeIndex1 := append tradeIndex timestampAsString
              let jsonAsBytes := jsonMarshalStrings tradeIndex1
              (Except.ok none, (stub2.PutState tradeIndexStr jsonAsBytes).2)

/-- Source `Run`: the entry point for invocations. -/
def Run (unicodeLower : Char → Char) (now : Int) (stub : ChaincodeStub) (function : String)
    (args : List String) : Response × ChaincodeStub :=
  if function = "init" then init stub args
  else if function = "write" then write stub args
  else if function = "create_and_submit_trade" then
    create_and_submit_trade unicodeLower now stub args
  else (Except.error "Received unknown function invocation", stub)

/-- Source `Query`: the entry point for queries. -/
def Query (stub : ChaincodeStub) (function : String) (args : List String) :
    Response × ChaincodeStub :=
  if function = "read" then read stub args
  else (Except.error "Received unknown function query", stub)

/-! ## Sequences of invocations -/

/-- One invocation of `Run`: the function name, the arguments, and the clock reading
`time.Now().UnixNano()` during the call. -/
structure Invocation where
  function : String
  args : List String
  now : Int

/-- The ledger after running the invocations one after the other through `Run`. -/
def runAll (unicodeLower : Char → Char) (stub : ChaincodeStub) : List Invocation → ChaincodeStub
  | [] => stub
  | inv :: rest =>
    runAll unicodeLower (Run unicodeLower inv.now stub inv.function inv.args).2 rest

/-- The calls a run made to the stub, given the stub before and after it. -/
def newOps (before after : ChaincodeStub) : List StubOp := after.ops.drop before.ops.length

/-- The key under which an invocation of "create_and_submit_trade" wrote its record:
the key of the first `PutState` the call made, when that put succeeded.  `none` for
other functions and for calls that wrote no record. -/
def recordWritten (unicodeLower : Char → Char) (stub : ChaincodeStub) (inv : Invocation) :
    Option String :=
  if inv.function = "create_and_submit_trade" then
    match newOps stub (create_and_submit_trade unicodeLower inv.now stub inv.args).2 with
    | StubOp.put key _ :: _ => if stub.putErr key = none then some key else none
    | _ => none
  else none

/-- The keys under which `create_and_submit_trade` wrote a record while the invocations
ran, in call order. -/
def recordKeys (unicodeLower : Char → Char) (stub : ChaincodeStub) :
    List Invocation → List String
  | [] => []
  | inv :: rest =>
    (recordWritten unicodeLower stub inv).toList ++
      recordKeys unicodeLower (Run unicodeLower inv.now stub inv.function inv.args).2 rest

/-- The sequence of keys stored under "_tradeindex", decoded as `create_and_submit_trade`
decodes it. -/
def indexKeys (stub : ChaincodeStub) : List String :=
  (jsonUnmarshalStrings (stub.state tradeIndexStr)).1.elems

/-- A ledger on which no `GetState` and no `PutState` fails. -/
def noFailures (stub : ChaincodeStub) : Prop :=
  (∀ key, stub.getErr key = none) ∧ (∀ key, stub.putErr key = none)

/-- The key on which a call to the stub was made. -/
def StubOp.key : StubOp → String
  | StubOp.get key => key
  | StubOp.put key _ => key

/-! ## Reading a stored record back -/

/-- The value of member `name` of a JSON object's member list; as when Go decodes into
a map, the last occurrence of a repeated name wins. -/
def lookupMember : List (String × JSONValue) → String → Option JSONValue
  | [], _ => none
  | (key, v) :: rest, name =>
    match lookupMember rest name with
    | some w => some w
    | none => if key = name then some v else none

/-- The text of the string member `name` of the JSON object encoded by `bytes`; `none`
when the bytes are absent, are not a JSON document, or the document is not an object
with a string member of that name. -/
def stringField (bytes : Option String) (name : String) : Option String :=
  match bytes.bind parseJSON with
  | some (JSONValue.object members) =>
    match lookupMember members name with
    | some (JSONValue.string s) => some s
    | _ => none
  | _ => none

/-- The literal of the number member `name` of the JSON object encoded by `bytes`. -/
def numberField (bytes : Option String) (name : String) : Option String :=
  match bytes.bind parseJSON with
  | some (JSONValue.object members) =>
    match lookupMember members name with
    | some (JSONValue.number literal) => some literal
    | _ => none
  | _ => none

/-- Text that can stand between the quotes of a JSON string literal as it is: no
double quote, no backslash, no control character. -/
def plainChars (cs : List Char) : Bool :=
  cs.all (fun c => decide (c ≠ dquote) && decide (c ≠ backslash) && decide (32 ≤ c.toNat))

/-- The text `"key": "val"` followed by `tail`, as written by `create_and_submit_trade`. -/
def strMember (key val tail : List Char) : List Char :=
  dquote :: (key ++ dquote :: ':' :: ' ' :: dquote :: (val ++ dquote :: tail))

/-- The text `"key": num` followed by `tail`, as written by `create_and_submit_trade`. -/
def numMember (key num tail : List Char) : List Char :=
  dquote :: (key ++ dquote :: ':' :: ' ' :: (num ++ tail))

/-! ## Sample ledgers and arguments -/

/-- A ledger with no entries on which every operation succeeds. -/
def emptyStub : ChaincodeStub :=
  { state := fun _ => none, getErr := fun _ => none, putErr := fun _ => none, ops := [] }

/-- A ledger with no entries whose `PutState` fails on the trade index only. -/
def indexPutFailsStub : ChaincodeStub :=
  { state := fun _ => none
    getErr := fun _ => none
    putErr := fun k => if k = tradeIndexStr then some "ledger unavailable" else none
    ops := [] }

/-- A well-formed argument list for `create_and_submit_trade`. -/
def sampleArgs : List String :=
  ["2016-01-01", "2016-01-03", "BUY", "100", "IBM", "12.5", "Bank", "Bob", "ignored", "0", "1"]

/-- A sequence of invocations mixing valid trades, a rejected trade, a generic write
and an unknown function. -/
def sampleInvocations : List Invocation :=
  [ { function := "create_and_submit_trade", args := sampleArgs, now := 1700000000000123456 },
    { function := "write", args := ["k", "v"], now := 1700000000001000000 },
    { function := "create_and_submit_trade", args := ["too", "few"], now := 1700000000002000000 },
    { function := "delete", args := [], now := 1700000000003000000 },
    { function := "create_and_submit_trade", args := sampleArgs, now := 1700000000004999999 } ]

/-- A well-formed argument list whose trade date contains a double quote. -/
def quoteArgs : List String :=
  ["a\"b", "2016-01-03", "BUY", "100", "IBM", "12.5", "Bank", "Bob", "ignored", "0", "1"]

/-- A ledger with no entries whose `PutState` fails on the key "1700000000000" only. -/
def recordPutFailsStub : ChaincodeStub :=
  { state := fun _ => none
    getErr := fun _ => none
    putErr := fun k => if k = "1700000000000" then some "ledger unavailable" else none
    ops := [] }

/-- A ledger whose trade index holds a JSON array with an element that is not a string. -/
def mixedIndexStub : ChaincodeStub :=
  { state := fun k => if k = tradeIndexStr then some "[\"a\",1]" else none
    getErr := fun _ => none
    putErr := fun _ => none
    ops := [] }

/-- A well-formed argument list whose settled flag is 7 and needs-revision flag is -3. -/
def flagArgs : List String :=
  ["2016-01-01", "2016-01-03", "BUY", "100", "IBM", "12.5", "Bank", "Bob", "ignored", "7", "-3"]

/-- The argument list `sampleArgs` with another text in the caller's timestamp position. -/
def sampleArgsOtherStamp : List String :=
  ["2016-01-01", "2016-01-03", "BUY", "100", "IBM", "12.5", "Bank", "Bob", "1999", "0", "1"]

/-! ## Basic facts about the stub -/

set_option maxRecDepth 200000

theorem PutState_ok (stub : ChaincodeStub) (key value : String) (h : stub.putErr key = none) :
    stub.PutState key value =
      (none, { stub with
        state := fun k => if k = key then some value else stub.state k
        ops := stub.ops ++ [StubOp.put key value] }) := by
  simp [ChaincodeStub.PutState, h]

theorem PutState_fail (stub : ChaincodeStub) (key value err : String)
    (h : stub.putErr key = some err) :
    stub.PutState key value =
      (some err, { stub with ops := stub.ops ++ [StubOp.put key value] }) := by
  simp [ChaincodeStub.PutState, h]

theorem GetState_ok (stub : ChaincodeStub) (key : String) (h : stub.getErr key = none) :
    stub.GetState key =
      (Except.ok (stub.state key), { stub with ops := stub.ops ++ [StubOp.get key] }) := by
  simp [ChaincodeStub.GetState, h]

theorem GetState_fail (stub : ChaincodeStub) (key err : String)
    (h : stub.getErr key = some err) :
    stub.GetState key =
      (Except.error err, { stub with ops := stub.ops ++ [StubOp.get key] }) := by
  simp [ChaincodeStub.GetState, h]

/-! ## Argument validation of `create_and_submit_trade` -/

/-- C5: with an argument count other than 11, `create_and_submit_trade` returns the
argument-count error and hands back the stub untouched (no ledger call, no write). -/
theorem create_and_submit_trade_wrong_count (unicodeLower : Char → Char) (now : Int)
    (stub : ChaincodeStub) (args : List String) (h : args.length ≠ 11) :
    create_and_submit_trade unicodeLower now stub args =
      (Except.error "Incorrect number of arguments. Expecting 11", stub) := by
  simp [create_and_submit_trade, h]

theorem create_and_submit_trade_wrong_count_witness :
    (["a", "b", "c", "1", "e", "f", "g", "h", "i", "0"] : List String).length ≠ 11 ∧
    create_and_submit_trade id 0 emptyStub ["a", "b", "c", "1", "e", "f", "g", "h", "i", "0"] =
      (Except.error "Incorrect number of arguments. Expecting 11", emptyStub) :=
  ⟨by decide, create_and_submit_trade_wrong_count id 0 emptyStub _ (by decide)⟩

/-- C4: with 11 arguments of which the quantity (`args[3]`), the settled flag
(`args[9]`) or the needs-revision flag (`args[10]`) does not parse as an integer,
`create_and_submit_trade` returns an error and hands back the stub untouched, whatever
the ledger and the clock: no record is written and the trade index is unchanged. -/
theorem create_and_submit_trade_parse_error (unicodeLower : Char → Char) (now : Int)
    (stub : ChaincodeStub) (args : List String) (hlen : args.length = 11)
    (hbad : Atoi (args.getD 3 "") = none ∨ Atoi (args.getD 9 "") = none
      ∨ Atoi (args.getD 10 "") = none) :
    ∃ msg, create_and_submit_trade unicodeLower now stub args = (Except.error msg, stub) := by
  unfold create_and_submit_trade
  simp only [hlen, ne_eq, not_true_eq_false, if_false]
  cases h3 : Atoi (args.getD 3 "") with
  | none => exact ⟨_, rfl⟩
  | some q =>
    cases h9 : Atoi (args.getD 9 "") with
    | none => exact ⟨_, rfl⟩
    | some st =>
      cases h10 : Atoi (args.getD 10 "") with
      | none => exact ⟨_, rfl⟩
      | some nr =>
        rcases hbad with h | h | h
        · rw [h3] at h; cases h
        · rw [h9] at h; cases h
        · rw [h10] at h; cases h

theorem create_and_submit_trade_parse_error_witness :
    ∃ msg, create_and_submit_trade id 0 emptyStub
        ["a", "b", "c", "ten", "e", "f", "g", "h", "i", "0", "1"] =
      (Except.error msg, emptyStub) :=
  create_and_submit_trade_parse_error id 0 emptyStub
    ["a", "b", "c", "ten", "e", "f", "g", "h", "i", "0", "1"] (by decide)
    (Or.inl (by decide))

/-! ## `read`, `write`, `init` -/

/-- C9: when the `PutState` on `k` succeeds and the later `GetState` on `k` reports no
read error, `write` with `[k, v]` succeeds and `read` with `[k]` on the ledger it leaves
returns exactly `v`, with no error. -/
theorem write_then_read (stub : ChaincodeStub) (k v : String)
    (hput : stub.putErr k = none) (hget : stub.getErr k = none) :
    (write stub [k, v]).1 = Except.ok none ∧
    (read (write stub [k, v]).2 [k]).1 = Except.ok (some v) := by
  simp [write, read, ChaincodeStub.PutState, ChaincodeStub.GetState, hput, hget]

theorem write_then_read_witness :
    (write emptyStub ["k", "v"]).1 = Except.ok none ∧
    (read (write emptyStub ["k", "v"]).2 ["k"]).1 = Except.ok (some "v") :=
  write_then_read emptyStub "k" "v" rfl rfl

/-- C6 as stated fails: on a ledger where the key has no value and `GetState` reports no
read error, `read` does not return an error. -/
theorem read_absent_key_counterexample :
    ¬ (∀ (stub : ChaincodeStub) (k : String), stub.state k = none → stub.getErr k = none →
        ∃ msg, (read stub [k]).1 = Except.error msg) := by
  intro h
  obtain ⟨msg, hmsg⟩ := h emptyStub "missing" rfl rfl
  have hok : (read emptyStub ["missing"]).1 = Except.ok none := rfl
  rw [hok] at hmsg
  cases hmsg

/-- C6 amended: `read` with the single key `k` returns whatever `GetState` found when it
reports no read error, so for a key with no value it returns success with `nil` bytes;
when `GetState` reports a read error, `read` returns an error whose message names `k`. -/
theorem read_single_key (stub : ChaincodeStub) (k : String) :
    (stub.getErr k = none → (read stub [k]).1 = Except.ok (stub.state k)) ∧
    (stub.getErr k = none → stub.state k = none → (read stub [k]).1 = Except.ok none) ∧
    (∀ err, stub.getErr k = some err →
      (read stub [k]).1 =
        Except.error ("\x7b\"Error\":\"Failed to get state for " ++ k ++ "\"\x7d")) := by
  refine ⟨?_, ?_, ?_⟩
  · intro hget
    simp [read, ChaincodeStub.GetState, hget]
  · intro hget habsent
    simp [read, ChaincodeStub.GetState, hget, habsent]
  · intro err hget
    simp [read, ChaincodeStub.GetState, hget]

theorem read_single_key_witness :
    (read emptyStub ["missing"]).1 = Except.ok none :=
  (read_single_key emptyStub "missing").2.1 rfl rfl

/-- C8: when the argument parses as the integer `n`, both `PutState` calls succeed and
the later reads report no read error, `init` succeeds, `read` of "abc" returns the
decimal string of `n`, and `read` of "_tradeindex" returns bytes that `json.Unmarshal`
decodes without error to a slice with no elements. -/
theorem init_then_read (stub : ChaincodeStub) (a : String) (n : Int)
    (ha : Atoi a = some n)
    (hputA : stub.putErr "abc" = none) (hputI : stub.putErr tradeIndexStr = none)
    (hgetA : stub.getErr "abc" = none) (hgetI : stub.getErr tradeIndexStr = none) :
    (init stub [a]).1 = Except.ok none ∧
    (read (init stub [a]).2 ["abc"]).1 = Except.ok (some (Itoa n)) ∧
    ∃ bytes, (read (init stub [a]).2 [tradeIndexStr]).1 = Except.ok bytes ∧
      (jsonUnmarshalStrings bytes).2 = false ∧ (jsonUnmarshalStrings bytes).1.elems = [] := by
  have hne : ("abc" = tradeIndexStr) = False := by decide
  refine ⟨?_, ?_, ?_⟩
  · simp [init, ChaincodeStub.PutState, ha, hputA, hputI]
  · simp [init, read, ChaincodeStub.PutState, ChaincodeStub.GetState, ha, hputA, hputI,
      hgetA, hne]
  · refine ⟨some (jsonMarshalStrings none), ?_, ?_, ?_⟩
    · simp [init, read, ChaincodeStub.PutState, ChaincodeStub.GetState, ha, hputA, hputI,
        hgetI]
    · decide
    · decide

theorem init_then_read_witness :
    (init emptyStub ["5"]).1 = Except.ok none ∧
    (read (init emptyStub ["5"]).2 ["abc"]).1 = Except.ok (some "5") ∧
    ∃ bytes, (read (init emptyStub ["5"]).2 [tradeIndexStr]).1 = Except.ok bytes ∧
      (jsonUnmarshalStrings bytes).2 = false ∧ (jsonUnmarshalStrings bytes).1.elems = [] :=
  init_then_read emptyStub "5" 5 (by decide) rfl rfl rfl rfl

/-! ## Dispatch -/

/-- C10 as stated fails: `Run` also dispatches the function name "init", which succeeds
and writes to the ledger. -/
theorem Run_init_counterexample :
    ¬ (∀ (unicodeLower : Char → Char) (now : Int) (stub : ChaincodeStub) (function : String)
        (args : List String), function ≠ "write" → function ≠ "create_and_submit_trade" →
        Run unicodeLower now stub function args =
          (Except.error "Received unknown function invocation", stub)) := by
  intro h
  have h1 := h id 0 emptyStub "init" ["5"] (by decide) (by decide)
  have h2 : (Run id 0 emptyStub "init" ["5"]).2.state "abc" = some "5" := by decide
  rw [h1] at h2
  cases h2

/-- C10 amended: for every function name other than "init", "write" and
"create_and_submit_trade", `Run` returns the error "Received unknown function
invocation" and hands back the stub untouched; for every function name other than
"read", `Query` returns the error "Received unknown function query" and hands back the
stub untouched. -/
theorem unknown_function (unicodeLower : Char → Char) (now : Int) (stub : ChaincodeStub)
    (function : String) (args : List String) :
    (function ≠ "init" → function ≠ "write" → function ≠ "create_and_submit_trade" →
      Run unicodeLower now stub function args =
        (Except.error "Received unknown function invocation", stub)) ∧
    (function ≠ "read" →
      Query stub function args = (Except.error "Received unknown function query", stub)) := by
  constructor
  · intro h1 h2 h3
    simp [Run, h1, h2, h3]
  · intro h
    simp [Query, h]

theorem unknown_function_witness :
    Run id 0 emptyStub "delete" ["x"] =
      (Except.error "Received unknown function invocation", emptyStub) ∧
    Query emptyStub "delete" ["x"] =
      (Except.error "Received unknown function query", emptyStub) :=
  ⟨(unknown_function id 0 emptyStub "delete" ["x"]).1 (by decide) (by decide) (by decide),
   (unknown_function id 0 emptyStub "delete" ["x"]).2 (by decide)⟩

/-! ## Store failures -/

/-- C3, the failing case: on a ledger whose `PutState` fails on "_tradeindex" only, a
valid `create_and_submit_trade` call writes the record, fails to write the index, and
still returns success (`nil, nil`): the error of the last `PutState` is never tested. -/
theorem create_and_submit_trade_drops_index_put_error :
    indexPutFailsStub.putErr tradeIndexStr = some "ledger unavailable" ∧
    (create_and_submit_trade id 1700000000000123456 indexPutFailsStub sampleArgs).1 =
      Except.ok none ∧
    ((create_and_submit_trade id 1700000000000123456 indexPutFailsStub sampleArgs).2.state
      "1700000000000").isSome = true ∧
    (create_and_submit_trade id 1700000000000123456 indexPutFailsStub sampleArgs).2.state
      tradeIndexStr = none := by
  refine ⟨rfl, ?_, ?_, ?_⟩
  · rfl
  · decide
  · decide

/-! ## The decoder undoes the encoder -/

theorem char_eq_ofNat (c : Char) (n : Nat) (h : c.toNat = n) : c = Char.ofNat n := by
  rw [← h, Char.ofNat_toNat]

theorem getu4_ascii (n : Nat) (hn : n < 128) (tail : List Char) :
    getu4 (backslash :: 'u' :: '0' :: '0' :: hexDigit (n / 16) :: hexDigit n :: tail) = some n := by
  have h : ∀ n : Nat, n < 128 →
      getu4 [backslash, 'u', '0', '0', hexDigit (n / 16), hexDigit n] = some n := by decide
  simpa [getu4] using h n hn

theorem getu4_separator (n : Nat) (hn : n = 0x2028 ∨ n = 0x2029) (tail : List Char) :
    getu4 (backslash :: 'u' :: '2' :: '0' :: '2' :: hexDigit n :: tail) = some n := by
  have h1 : getu4 [backslash, 'u', '2', '0', '2', hexDigit 0x2028] = some 0x2028 := by decide
  have h2 : getu4 [backslash, 'u', '2', '0', '2', hexDigit 0x2029] = some 0x2029 := by decide
  rcases hn with h | h
  · subst h; simpa [getu4] using h1
  · subst h; simpa [getu4] using h2

theorem scanString_safe (c : Char) (tail : List Char) (f : Nat)
    (hq : c ≠ dquote) (hb : c ≠ backslash) (h32 : 32 ≤ c.toNat) :
    scanString (f + 1) (c :: tail) = (scanString f tail).map (fun p => (c :: p.1, p.2)) := by
  simp [scanString, hb, hq, Nat.not_lt.mpr h32]

theorem scanString_simple (e d : Char) (tail : List Char) (f : Nat)
    (hu : e ≠ 'u') (hd : simpleEscape e = some d) :
    scanString (f + 1) (backslash :: e :: tail) =
      (scanString f tail).map (fun p => (d :: p.1, p.2)) := by
  have hbq : backslash ≠ dquote := by decide
  simp [scanString, hbq, hu, hd]

theorem scanString_u4 (n : Nat) (c1 c2 c3 c4 : Char) (tail : List Char) (f : Nat)
    (hg : getu4 (backslash :: 'u' :: c1 :: c2 :: c3 :: c4 :: tail) = some n)
    (hs : isSurrogate n = false) :
    scanString (f + 1) (backslash :: 'u' :: c1 :: c2 :: c3 :: c4 :: tail) =
      (scanString f tail).map (fun p => (Char.ofNat n :: p.1, p.2)) := by
  have hbq : backslash ≠ dquote := by decide
  simp [scanString, hbq, hg, hs]

theorem scanString_escapeChar (c : Char) (tail : List Char) (f : Nat) :
    scanString (f + 1) (escapeChar c ++ tail) = (scanString f tail).map (fun p => (c :: p.1, p.2)) := by
  unfold escapeChar
  by_cases h128 : c.toNat < 128
  · rw [if_pos h128]
    by_cases hsafe : 32 ≤ c.toNat ∧ c ≠ backslash ∧ c ≠ dquote ∧ c ≠ '<' ∧ c ≠ '>' ∧ c ≠ '&'
    · rw [if_pos hsafe]
      exact scanString_safe c tail f hsafe.2.2.1 hsafe.2.1 hsafe.1
    · rw [if_neg hsafe]
      by_cases hbq : c = backslash ∨ c = dquote
      · rw [if_pos hbq]
        rcases hbq with h | h
        · subst h; exact scanString_simple _ _ tail f (by decide) (by decide)
        · subst h; exact scanString_simple _ _ tail f (by decide) (by decide)
      · rw [if_neg hbq]
        by_cases h10 : c.toNat = 10
        · rw [if_pos h10, char_eq_ofNat c 10 h10]
          exact scanString_simple _ _ tail f (by decide) (by decide)
        · rw [if_neg h10]
          by_cases h13 : c.toNat = 13
          · rw [if_pos h13, char_eq_ofNat c 13 h13]
            exact scanString_simple _ _ tail f (by decide) (by decide)
          · rw [if_neg h13]
            by_cases h9 : c.toNat = 9
            · rw [if_pos h9, char_eq_ofNat c 9 h9]
              exact scanString_simple _ _ tail f (by decide) (by decide)
            · rw [if_neg h9]
              have hs : isSurrogate c.toNat = false := by
                simp [isSurrogate]; omega
              have := scanString_u4 c.toNat _ _ _ _ tail f (getu4_ascii c.toNat h128 tail) hs
              rw [Char.ofNat_toNat] at this
              exact this
  · rw [if_neg h128]
    have hq : c ≠ dquote := by
      intro h; subst h; exact h128 (by decide)
    have hb : c ≠ backslash := by
      intro h; subst h; exact h128 (by decide)
    by_cases hsep : c.toNat = 0x2028 ∨ c.toNat = 0x2029
    · rw [if_pos hsep]
      have hs : isSurrogate c.toNat = false := by
        simp [isSurrogate]; omega
      have := scanString_u4 c.toNat _ _ _ _ tail f (getu4_separator c.toNat hsep tail) hs
      rw [Char.ofNat_toNat] at this
      exact this
    · rw [if_neg hsep]
      exact scanString_safe c tail f hq hb (by omega)

theorem scanString_escapeChars (cs rest : List Char) :
    ∀ fuel, cs.length < fuel →
      scanString fuel (escapeChars cs ++ dquote :: rest) = some (cs, rest) := by
  induction cs with
  | nil =>
    intro fuel h
    cases fuel with
    | zero => omega
    | succ f => simp [escapeChars, scanString]
  | cons c cs ih =>
    intro fuel h
    cases fuel with
    | zero => omega
    | succ f =>
      have hf : cs.length < f := by simpa using h
      simp only [escapeChars, List.append_assoc]
      rw [scanString_escapeChar, ih f hf]
      rfl

theorem length_le_escapeChars (cs : List Char) : cs.length ≤ (escapeChars cs).length := by
  induction cs with
  | nil => simp [escapeChars]
  | cons c cs ih =>
    have h1 : 1 ≤ (escapeChar c).length := by
      unfold escapeChar
      split_ifs <;> simp
    simp only [escapeChars, List.length_append, List.length_cons]
    omega

theorem skipSpace_cons (c : Char) (cs : List Char) (h : isSpace c = false) :
    skipSpace (c :: cs) = c :: cs := by
  simp [skipSpace, h]

theorem encodeString_append (s : String) (rest : List Char) :
    encodeString s ++ rest = dquote :: (escapeChars s.data ++ dquote :: rest) := by
  simp [encodeString]

theorem parseValue_encodeString (d : Nat) (s : String) (rest : List Char) :
    parseValue (d + 1) (encodeString s ++ rest) = some (JSONValue.string s, rest) := by
  rw [encodeString_append]
  have h1 : dquote ≠ lbrace := by decide
  have h2 : dquote ≠ '[' := by decide
  have hlen : s.data.length < (escapeChars s.data ++ dquote :: rest).length + 1 := by
    have := length_le_escapeChars s.data
    simp only [List.length_append, List.length_cons]
    omega
  simp only [parseValue, if_neg h1, if_neg h2, if_true]
  rw [scanString_escapeChars s.data rest _ hlen]
  rfl

theorem length_le_encodeElems (xs : List String) : xs.length ≤ (encodeElems xs).length := by
  induction xs with
  | nil => simp
  | cons x xs ih =>
    cases xs with
    | nil => simp [encodeElems, encodeString]
    | cons y ys =>
      simp only [encodeElems, List.length_append, List.length_cons] at ih ⊢
      omega

theorem parseElems_encodeElems (d : Nat) (xs : List String) (rest : List Char) :
    ∀ (x : String) (n : Nat), xs.length < n →
      parseElems (parseValue (d + 1)) n (encodeElems (x :: xs) ++ rest) =
        some ((x :: xs).map JSONValue.string, rest) := by
  have hq : isSpace dquote = false := by decide
  induction xs with
  | nil =>
    intro x n hn
    cases n with
    | zero => omega
    | succ n =>
      have hc : (']' : Char) ≠ ',' := by decide
      simp only [encodeElems, List.append_assoc, List.singleton_append, parseElems]
      rw [encodeString_append, skipSpace_cons _ _ hq, ← encodeString_append,
        parseValue_encodeString]
      simp [skipSpace, isSpace]
  | cons y ys ih =>
    intro x n hn
    cases n with
    | zero => omega
    | succ n =>
      have hn1 : ys.length < n := by simpa using hn
      simp only [encodeElems, List.append_assoc, List.cons_append, parseElems]
      rw [encodeString_append, skipSpace_cons _ _ hq, ← encodeString_append,
        parseValue_encodeString]
      have := ih y n hn1
      simp only [encodeElems, List.append_assoc, List.cons_append] at this
      simp [skipSpace, isSpace, this]

theorem encodeElems_cons_head (x : String) (xs : List String) :
    ∃ T, encodeElems (x :: xs) = dquote :: T := by
  cases xs with
  | nil => exact ⟨_, rfl⟩
  | cons y ys => exact ⟨_, rfl⟩

theorem parseValue_array (d : Nat) (c1 : Char) (rest1 : List Char)
    (hs : isSpace c1 = false) (hc : c1 ≠ ']') :
    parseValue (d + 1) ('[' :: c1 :: rest1) =
      (parseElems (parseValue d) ((c1 :: rest1).length + 1) (c1 :: rest1)).map
        (fun p => (JSONValue.array p.1, p.2)) := by
  have h1 : ('[' : Char) ≠ lbrace := by decide
  simp only [parseValue, if_neg h1, if_true, skipSpace_cons _ _ hs, if_neg hc]

theorem parseJSON_jsonMarshalStrings (xs : List String) :
    parseJSON (jsonMarshalStrings (some xs)) =
      some (JSONValue.array (xs.map JSONValue.string)) := by
  cases xs with
  | nil => rfl
  | cons x xs =>
    obtain ⟨T, hT⟩ := encodeElems_cons_head x xs
    have hb : isSpace '[' = false := by decide
    have hq : isSpace dquote = false := by decide
    have h2 : dquote ≠ ']' := by decide
    have hlen : xs.length < (dquote :: T).length + 1 := by
      have := length_le_encodeElems (x :: xs)
      rw [hT] at this
      simp only [List.length_cons] at this ⊢
      omega
    have hp := parseElems_encodeElems (dquote :: T).length xs [] x _ hlen
    rw [List.append_nil, hT] at hp
    have hv := parseValue_array ((dquote :: T).length + 1) dquote T hq h2
    rw [hp] at hv
    simp only [parseJSON, jsonMarshalStrings, hT, skipSpace_cons _ _ hb]
    rw [show ('[' :: dquote :: T).length + 1 = (dquote :: T).length + 1 + 1 from rfl, hv]
    rfl

theorem jsonUnmarshalStrings_jsonMarshalStrings (s : StringSlice) :
    jsonUnmarshalStrings (some (jsonMarshalStrings s)) = (s, false) := by
  cases s with
  | none => rfl
  | some xs =>
    have hmap : List.map stringOfElem (List.map JSONValue.string xs) = xs := by
      induction xs with
      | nil => rfl
      | cons x xs ih => simp only [List.map_cons, stringOfElem, ih]
    have hany : (List.map JSONValue.string xs).any elemMismatch = false := by
      clear hmap
      induction xs with
      | nil => rfl
      | cons x xs ih => simp only [List.map_cons, List.any_cons, elemMismatch, ih, Bool.false_or]
    simp only [jsonUnmarshalStrings, Option.getD_some, parseJSON_jsonMarshalStrings, hmap, hany]

/-! ## Decimal strings -/

theorem isDigit_digitChar (n : Nat) : isDigit (digitChar n) = true := by
  have h : ∀ m : Nat, m < 10 → isDigit (Char.ofNat (48 + m)) = true := by decide
  exact h (n % 10) (Nat.mod_lt n (by decide))

theorem isDigit_of_mem_natDigits (fuel : Nat) :
    ∀ (n : Nat) (c : Char), c ∈ natDigits fuel n → isDigit c = true := by
  induction fuel with
  | zero => intro n c h; simp [natDigits] at h
  | succ f ih =>
    intro n c h
    unfold natDigits at h
    split_ifs at h with hlt
    · rw [List.mem_singleton] at h
      rw [h]; exact isDigit_digitChar n
    · rw [List.mem_append, List.mem_singleton] at h
      rcases h with h | h
      · exact ih _ c h
      · rw [h]; exact isDigit_digitChar n

theorem mem_FormatInt (i : Int) (c : Char) (h : c ∈ (FormatInt i).data) :
    c = '-' ∨ isDigit c = true := by
  unfold FormatInt at h
  split_ifs at h
  · rcases List.mem_cons.mp h with h | h
    · exact Or.inl h
    · exact Or.inr (isDigit_of_mem_natDigits _ _ c h)
  · exact Or.inr (isDigit_of_mem_natDigits _ _ c h)

theorem FormatInt_ne_tradeIndexStr (i : Int) : FormatInt i ≠ tradeIndexStr := by
  intro h
  have hmem : '_' ∈ (FormatInt i).data := by rw [h]; decide
  rcases mem_FormatInt i '_' hmem with h1 | h1
  · exact absurd h1 (by decide)
  · exact absurd h1 (by decide)

/-! ## What a call of `create_and_submit_trade` does when its arguments are valid -/

/-- With valid arguments, a successful record `PutState` and a `GetState` of the index
that reports no read error, `create_and_submit_trade` returns success; the ledger then
holds the trade text under the timestamp key, every key other than the timestamp key
and "_tradeindex" is as before, and when the last `PutState` succeeds the index holds
the old decoded index with the timestamp key appended. -/
theorem create_and_submit_trade_effect (unicodeLower : Char → Char) (now : Int)
    (stub : ChaincodeStub) (args : List String) (quantity settled needsrevision : Int)
    (hlen : args.length = 11)
    (h3 : Atoi (args.getD 3 "") = some quantity)
    (h9 : Atoi (args.getD 9 "") = some settled)
    (h10 : Atoi (args.getD 10 "") = some needsrevision)
    (hputK : stub.putErr (FormatInt (makeTimestamp now)) = none)
    (hgetI : stub.getErr tradeIndexStr = none) :
    (create_and_submit_trade unicodeLower now stub args).1 = Except.ok none ∧
    (create_and_submit_trade unicodeLower now stub args).2.state (FormatInt (makeTimestamp now))
      = some (tradeString (ToLower unicodeLower (args.getD 0 ""))
          (ToLower unicodeLower (args.getD 1 "")) (ToLower unicodeLower (args.getD 2 ""))
          quantity (ToLower unicodeLower (args.getD 4 "")) (ToLower unicodeLower (args.getD 5 ""))
          (ToLower unicodeLower (args.getD 6 "")) (ToLower unicodeLower (args.getD 7 ""))
          (FormatInt (makeTimestamp now)) settled needsrevision) ∧
    (stub.putErr tradeIndexStr = none →
      (create_and_submit_trade unicodeLower now stub args).2.state tradeIndexStr =
        some (jsonMarshalStrings (append (jsonUnmarshalStrings (stub.state tradeIndexStr)).1
          (FormatInt (makeTimestamp now))))) ∧
    (∀ key, key ≠ FormatInt (makeTimestamp now) → key ≠ tradeIndexStr →
      (create_and_submit_trade unicodeLower now stub args).2.state key = stub.state key) ∧
    (create_and_submit_trade unicodeLower now stub args).2.getErr = stub.getErr ∧
    (create_and_submit_trade unicodeLower now stub args).2.putErr = stub.putErr := by
  have hne : tradeIndexStr ≠ FormatInt (makeTimestamp now) :=
    fun h => FormatInt_ne_tradeIndexStr _ h.symm
  have hlen1 : ¬ args.length ≠ 11 := fun h => h hlen
  unfold create_and_submit_trade
  rw [if_neg hlen1]
  simp only [h3, h9, h10]
  rw [PutState_ok _ _ _ hputK]
  simp only []
  simp only [ChaincodeStub.GetState, hgetI, if_neg hne]
  refine ⟨trivial, ?_, ?_, ?_, ?_, ?_⟩
  · cases hputI : stub.putErr tradeIndexStr <;>
      simp [ChaincodeStub.PutState, hputI, FormatInt_ne_tradeIndexStr]
  · intro hputI
    simp [ChaincodeStub.PutState, hputI]
  · intro key hk1 hk2
    cases hputI : stub.putErr tradeIndexStr <;>
      simp [ChaincodeStub.PutState, hputI, hk1, hk2]
  · cases hputI : stub.putErr tradeIndexStr <;> simp [ChaincodeStub.PutState, hputI]
  · cases hputI : stub.putErr tradeIndexStr <;> simp [ChaincodeStub.PutState, hputI]

/-- What a successful `init` leaves: "abc" holds the decimal string of the seed, the
index holds the marshalled `nil` slice, other keys and the failure behaviour of the
ledger are as before. -/
theorem init_effect (stub : ChaincodeStub) (a : String) (n : Int) (ha : Atoi a = some n)
    (hputA : stub.putErr "abc" = none) (hputI : stub.putErr tradeIndexStr = none) :
    (init stub [a]).1 = Except.ok none ∧
    (init stub [a]).2.state "abc" = some (Itoa n) ∧
    (init stub [a]).2.state tradeIndexStr = some (jsonMarshalStrings none) ∧
    (∀ key, key ≠ "abc" → key ≠ tradeIndexStr → (init stub [a]).2.state key = stub.state key) ∧
    (init stub [a]).2.getErr = stub.getErr ∧
    (init stub [a]).2.putErr = stub.putErr := by
  have hne : ("abc" = tradeIndexStr) = False := by decide
  refine ⟨?_, ?_, ?_, ?_, ?_, ?_⟩
  · simp [init, ChaincodeStub.PutState, ha, hputA, hputI]
  · simp [init, ChaincodeStub.PutState, ha, hputA, hputI, hne]
  · simp [init, ChaincodeStub.PutState, ha, hputA, hputI]
  · intro key h1 h2
    simp [init, ChaincodeStub.PutState, ha, hputA, hputI, h1, h2]
  · simp [init, ChaincodeStub.PutState, ha, hputA, hputI]
  · simp [init, ChaincodeStub.PutState, ha, hputA, hputI]

/-! ## The trade index -/

/-- C2: when "_tradeindex" holds the serialization of a slice `s` of strings, a valid
`create_and_submit_trade` call whose ledger operations succeed returns success and
leaves under "_tradeindex" the serialization of `s` with the generated key appended as
last element, whether or not the key already occurs in `s`.  Hence after a successful
`init`, two successive valid calls with clock readings `now1` and `now2` leave the
serialization of the two generated keys in call order. -/
theorem create_and_submit_trade_appends_key (unicodeLower : Char → Char) (now : Int)
    (stub : ChaincodeStub) (args : List String) (quantity settled needsrevision : Int)
    (s : StringSlice)
    (hlen : args.length = 11)
    (h3 : Atoi (args.getD 3 "") = some quantity)
    (h9 : Atoi (args.getD 9 "") = some settled)
    (h10 : Atoi (args.getD 10 "") = some needsrevision)
    (hidx : stub.state tradeIndexStr = some (jsonMarshalStrings s))
    (hputK : stub.putErr (FormatInt (makeTimestamp now)) = none)
    (hgetI : stub.getErr tradeIndexStr = none)
    (hputI : stub.putErr tradeIndexStr = none) :
    ((create_and_submit_trade unicodeLower now stub args).1 = Except.ok none ∧
     (create_and_submit_trade unicodeLower now stub args).2.state tradeIndexStr =
        some (jsonMarshalStrings (some (s.elems ++ [FormatInt (makeTimestamp now)])))) ∧
    (∀ (stub0 : ChaincodeStub) (a : String) (seed : Int) (now1 now2 : Int)
        (args1 args2 : List String) (q1 st1 nr1 q2 st2 nr2 : Int),
      Atoi a = some seed →
      (∀ key, stub0.putErr key = none) → (∀ key, stub0.getErr key = none) →
      args1.length = 11 → Atoi (args1.getD 3 "") = some q1 →
      Atoi (args1.getD 9 "") = some st1 → Atoi (args1.getD 10 "") = some nr1 →
      args2.length = 11 → Atoi (args2.getD 3 "") = some q2 →
      Atoi (args2.getD 9 "") = some st2 → Atoi (args2.getD 10 "") = some nr2 →
      (create_and_submit_trade unicodeLower now2
        (create_and_submit_trade unicodeLower now1 (init stub0 [a]).2 args1).2 args2).2.state
          tradeIndexStr =
        some (jsonMarshalStrings
          (some [FormatInt (makeTimestamp now1), FormatInt (makeTimestamp now2)]))) := by
  constructor
  · obtain ⟨hok, _, hi, _, _, _⟩ := create_and_submit_trade_effect unicodeLower now stub args
      quantity settled needsrevision hlen h3 h9 h10 hputK hgetI
    refine ⟨hok, ?_⟩
    rw [hi hputI, hidx, jsonUnmarshalStrings_jsonMarshalStrings]
    rfl
  · intro stub0 a seed now1 now2 args1 args2 q1 st1 nr1 q2 st2 nr2 ha hput hget
      hl1 h13 h19 h110 hl2 h23 h29 h210
    obtain ⟨_, _, hi0, _, hg0, hp0⟩ := init_effect stub0 a seed ha (hput _) (hput _)
    have hput0 : ∀ key, (init stub0 [a]).2.putErr key = none := fun key => by
      rw [hp0]; exact hput key
    have hget0 : ∀ key, (init stub0 [a]).2.getErr key = none := fun key => by
      rw [hg0]; exact hget key
    obtain ⟨_, _, hi1, _, hg1, hp1⟩ := create_and_submit_trade_effect unicodeLower now1
      (init stub0 [a]).2 args1 q1 st1 nr1 hl1 h13 h19 h110 (hput0 _) (hget0 _)
    have hi1 := hi1 (hput0 _)
    rw [hi0, jsonUnmarshalStrings_jsonMarshalStrings] at hi1
    have hput1 : ∀ key,
        (create_and_submit_trade unicodeLower now1 (init stub0 [a]).2 args1).2.putErr key
          = none := fun key => by rw [hp1]; exact hput0 key
    have hget1 : ∀ key,
        (create_and_submit_trade unicodeLower now1 (init stub0 [a]).2 args1).2.getErr key
          = none := fun key => by rw [hg1]; exact hget0 key
    obtain ⟨_, _, hi2, _, _, _⟩ := create_and_submit_trade_effect unicodeLower now2
      (create_and_submit_trade unicodeLower now1 (init stub0 [a]).2 args1).2 args2
      q2 st2 nr2 hl2 h23 h29 h210 (hput1 _) (hget1 _)
    have hi2 := hi2 (hput1 _)
    rw [hi1, jsonUnmarshalStrings_jsonMarshalStrings] at hi2
    rw [hi2]
    rfl

/-- A ledger whose index already lists the key that the next call will generate. -/
theorem create_and_submit_trade_appends_key_witness :
    (create_and_submit_trade id 1700000000000123456
        (create_and_submit_trade id 1700000000000123456 (init emptyStub ["5"]).2 sampleArgs).2
        sampleArgs).2.state tradeIndexStr =
      some "[\"1700000000000\",\"1700000000000\"]" :=
  ((create_and_submit_trade_appends_key id 1700000000000123456
      (create_and_submit_trade id 1700000000000123456 (init emptyStub ["5"]).2 sampleArgs).2
      sampleArgs 100 0 1 (some ["1700000000000"])
      (by decide) (by decide) (by decide) (by decide) (by decide) rfl rfl rfl).1).2

/-! ## The index and the records over a sequence of invocations -/

theorem create_and_submit_trade_rejects (unicodeLower : Char → Char) (now : Int)
    (stub : ChaincodeStub) (args : List String)
    (hbad : args.length ≠ 11 ∨ Atoi (args.getD 3 "") = none ∨ Atoi (args.getD 9 "") = none
      ∨ Atoi (args.getD 10 "") = none) :
    ∃ msg, create_and_submit_trade unicodeLower now stub args = (Except.error msg, stub) := by
  unfold create_and_submit_trade
  by_cases hlen : args.length = 11
  · rw [if_neg (fun h => h hlen)]
    cases h3 : Atoi (args.getD 3 "") with
    | none => exact ⟨_, rfl⟩
    | some q =>
      cases h9 : Atoi (args.getD 9 "") with
      | none => exact ⟨_, rfl⟩
      | some st =>
        cases h10 : Atoi (args.getD 10 "") with
        | none => exact ⟨_, rfl⟩
        | some nr =>
          rcases hbad with h | h | h | h
          · exact absurd hlen h
          · rw [h3] at h; cases h
          · rw [h9] at h; cases h
          · rw [h10] at h; cases h
  · rw [if_pos hlen]
    exact ⟨_, rfl⟩

theorem create_and_submit_trade_ops (unicodeLower : Char → Char) (now : Int)
    (stub : ChaincodeStub) (args : List String) (quantity settled needsrevision : Int)
    (hlen : args.length = 11)
    (h3 : Atoi (args.getD 3 "") = some quantity)
    (h9 : Atoi (args.getD 9 "") = some settled)
    (h10 : Atoi (args.getD 10 "") = some needsrevision)
    (hputK : stub.putErr (FormatInt (makeTimestamp now)) = none)
    (hgetI : stub.getErr tradeIndexStr = none) :
    ∃ str json, (create_and_submit_trade unicodeLower now stub args).2.ops =
      stub.ops ++ [StubOp.put (FormatInt (makeTimestamp now)) str, StubOp.get tradeIndexStr,
        StubOp.put tradeIndexStr json] := by
  have hlen1 : ¬ args.length ≠ 11 := fun h => h hlen
  unfold create_and_submit_trade
  rw [if_neg hlen1]
  simp only [h3, h9, h10]
  rw [PutState_ok _ _ _ hputK]
  simp only [ChaincodeStub.GetState, hgetI]
  cases hputI : stub.putErr tradeIndexStr <;>
    simp [ChaincodeStub.PutState, hputI]

theorem newOps_self (stub : ChaincodeStub) : newOps stub stub = [] := by
  simp [newOps]

theorem write_index_untouched (stub : ChaincodeStub) (args : List String)
    (hkey : args.getD 0 "" ≠ tradeIndexStr) :
    (write stub args).2.state tradeIndexStr = stub.state tradeIndexStr ∧
    (write stub args).2.getErr = stub.getErr ∧ (write stub args).2.putErr = stub.putErr := by
  unfold write
  by_cases hlen : args.length = 2
  · rw [if_neg (fun h => h hlen)]
    cases hp : stub.putErr (args.getD 0 "") with
    | none =>
      rw [PutState_ok _ _ _ hp]
      exact ⟨if_neg (fun h => hkey h.symm), rfl, rfl⟩
    | some err =>
      rw [PutState_fail _ _ _ err hp]
      exact ⟨rfl, rfl, rfl⟩
  · rw [if_pos hlen]
    exact ⟨rfl, rfl, rfl⟩

/-- One invocation other than "init" and other than a write to "_tradeindex", on a
ledger without failures whose index is the serialization of `s`: the index afterwards
is the serialization of `s` extended by the key of the record written, if any. -/
theorem Run_step_index (unicodeLower : Char → Char) (stub : ChaincodeStub) (inv : Invocation)
    (s : StringSlice) (hnf : noFailures stub)
    (hidx : stub.state tradeIndexStr = some (jsonMarshalStrings s))
    (hinit : inv.function ≠ "init")
    (hw : inv.function = "write" → inv.args.getD 0 "" ≠ tradeIndexStr) :
    noFailures (Run unicodeLower inv.now stub inv.function inv.args).2 ∧
    ∃ s1 : StringSlice,
      (Run unicodeLower inv.now stub inv.function inv.args).2.state tradeIndexStr =
        some (jsonMarshalStrings s1) ∧
      s1.elems = s.elems ++ (recordWritten unicodeLower stub inv).toList := by
  unfold Run
  rw [if_neg hinit]
  by_cases hwr : inv.function = "write"
  · rw [if_pos hwr]
    obtain ⟨h1, h2, h3⟩ := write_index_untouched stub inv.args (hw hwr)
    have hrec : recordWritten unicodeLower stub inv = none := by
      unfold recordWritten
      rw [if_neg]
      rw [hwr]; decide
    refine ⟨⟨fun key => by rw [h2]; exact hnf.1 key, fun key => by rw [h3]; exact hnf.2 key⟩,
      s, by rw [h1, hidx], by rw [hrec]; simp⟩
  · rw [if_neg hwr]
    by_cases hc : inv.function = "create_and_submit_trade"
    · rw [if_pos hc]
      by_cases hbad : inv.args.length ≠ 11 ∨ Atoi (inv.args.getD 3 "") = none
          ∨ Atoi (inv.args.getD 9 "") = none ∨ Atoi (inv.args.getD 10 "") = none
      · obtain ⟨msg, hmsg⟩ := create_and_submit_trade_rejects unicodeLower inv.now stub
          inv.args hbad
        have hrec : recordWritten unicodeLower stub inv = none := by
          unfold recordWritten
          rw [if_pos hc, hmsg, newOps_self]
        rw [hmsg]
        exact ⟨hnf, s, hidx, by rw [hrec]; simp⟩
      · simp only [not_or, not_not] at hbad
        obtain ⟨hlen, h3, h9, h10⟩ := hbad
        obtain ⟨q, h3⟩ := Option.ne_none_iff_exists'.mp h3
        obtain ⟨st, h9⟩ := Option.ne_none_iff_exists'.mp h9
        obtain ⟨nr, h10⟩ := Option.ne_none_iff_exists'.mp h10
        obtain ⟨_, _, hi, _, hg, hp⟩ := create_and_submit_trade_effect unicodeLower inv.now
          stub inv.args q st nr hlen h3 h9 h10 (hnf.2 _) (hnf.1 _)
        obtain ⟨str, json, hops⟩ := create_and_submit_trade_ops unicodeLower inv.now
          stub inv.args q st nr hlen h3 h9 h10 (hnf.2 _) (hnf.1 _)
        have hrec : recordWritten unicodeLower stub inv =
            some (FormatInt (makeTimestamp inv.now)) := by
          unfold recordWritten
          rw [if_pos hc]
          simp [newOps, hops, hnf.2]
        refine ⟨⟨fun key => by rw [hg]; exact hnf.1 key, fun key => by rw [hp]; exact hnf.2 key⟩,
          append s (FormatInt (makeTimestamp inv.now)), ?_, ?_⟩
        · rw [hi (hnf.2 _), hidx, jsonUnmarshalStrings_jsonMarshalStrings]
        · rw [hrec]; rfl
    · rw [if_neg hc]
      have hrec : recordWritten unicodeLower stub inv = none := by
        unfold recordWritten
        rw [if_neg hc]
      exact ⟨hnf, s, hidx, by rw [hrec]; simp⟩

theorem runAll_index (unicodeLower : Char → Char) (invs : List Invocation) :
    ∀ (stub : ChaincodeStub) (s : StringSlice), noFailures stub →
      stub.state tradeIndexStr = some (jsonMarshalStrings s) →
      (∀ inv ∈ invs, inv.function ≠ "init" ∧
        (inv.function = "write" → inv.args.getD 0 "" ≠ tradeIndexStr)) →
      indexKeys (runAll unicodeLower stub invs) = s.elems ++ recordKeys unicodeLower stub invs := by
  induction invs with
  | nil =>
    intro stub s _ hidx _
    simp [runAll, recordKeys, indexKeys, hidx, jsonUnmarshalStrings_jsonMarshalStrings]
  | cons inv rest ih =>
    intro stub s hnf hidx hall
    obtain ⟨hinit, hw⟩ := hall inv (List.mem_cons_self _ _)
    obtain ⟨hnf1, s1, hidx1, hs1⟩ := Run_step_index unicodeLower stub inv s hnf hidx hinit hw
    have hrest := ih _ s1 hnf1 hidx1 (fun i hi => hall i (List.mem_cons_of_mem _ hi))
    simp only [runAll, recordKeys]
    rw [hrest, hs1, List.append_assoc]

theorem init_ok_parses (stub : ChaincodeStub) (a : String)
    (h : (init stub [a]).1 = Except.ok none) : ∃ n, Atoi a = some n := by
  cases ha : Atoi a with
  | some n => exact ⟨n, rfl⟩
  | none =>
    have : (init stub [a]).1 = Except.error "Expecting integer value for asset holding" := by
      simp [init, ha]
    rw [this] at h
    cases h

/-- C7 as stated fails: after a successful `init`, the single invocation
`write("_tradeindex", "[\"42\"]")` leaves an index that lists the key "42", under which
`create_and_submit_trade` never wrote a record. -/
theorem index_invariant_counterexample :
    ¬ (∀ (unicodeLower : Char → Char) (stub0 : ChaincodeStub) (a : String)
        (invs : List Invocation),
        noFailures stub0 → (init stub0 [a]).1 = Except.ok none →
        (invs.map (fun inv => makeTimestamp inv.now)).Nodup →
        ∀ k, k ∈ indexKeys (runAll unicodeLower (init stub0 [a]).2 invs) ↔
          k ∈ recordKeys unicodeLower (init stub0 [a]).2 invs) := by
  intro h
  have h1 := h id emptyStub "5"
    [{ function := "write", args := ["_tradeindex", "[\"42\"]"], now := 0 }]
    ⟨fun _ => rfl, fun _ => rfl⟩ rfl (by simp) "42"
  have h2 : indexKeys (runAll id (init emptyStub ["5"]).2
      [{ function := "write", args := ["_tradeindex", "[\"42\"]"], now := 0 }]) = ["42"] := by
    decide
  have h3 : recordKeys id (init emptyStub ["5"]).2
      [{ function := "write", args := ["_tradeindex", "[\"42\"]"], now := 0 }] = [] := by
    decide
  rw [h2, h3] at h1
  simp at h1

/-- C7 amended: in every state reached from a successful `init` on a ledger without
failures by a finite sequence of `Run` invocations none of which is "init" or a
"write" whose key is "_tradeindex" (any other function names and arguments, timestamps
distinct or not), the sequence stored under "_tradeindex" is the sequence of keys under
which `create_and_submit_trade` has written a record, in call order; so a key is in the
index exactly when a record was written under it. -/
theorem index_lists_written_records (unicodeLower : Char → Char) (stub0 : ChaincodeStub)
    (a : String) (invs : List Invocation)
    (hnf : noFailures stub0) (hinit : (init stub0 [a]).1 = Except.ok none)
    (hall : ∀ inv ∈ invs, inv.function ≠ "init" ∧
      (inv.function = "write" → inv.args.getD 0 "" ≠ tradeIndexStr)) :
    indexKeys (runAll unicodeLower (init stub0 [a]).2 invs) =
      recordKeys unicodeLower (init stub0 [a]).2 invs ∧
    ∀ k, k ∈ indexKeys (runAll unicodeLower (init stub0 [a]).2 invs) ↔
      k ∈ recordKeys unicodeLower (init stub0 [a]).2 invs := by
  obtain ⟨n, ha⟩ := init_ok_parses stub0 a hinit
  obtain ⟨_, _, hi0, _, hg0, hp0⟩ := init_effect stub0 a n ha (hnf.2 _) (hnf.2 _)
  have hnf0 : noFailures (init stub0 [a]).2 :=
    ⟨fun key => by rw [hg0]; exact hnf.1 key, fun key => by rw [hp0]; exact hnf.2 key⟩
  have heq := runAll_index unicodeLower invs (init stub0 [a]).2 none hnf0 hi0 hall
  have heq1 : indexKeys (runAll unicodeLower (init stub0 [a]).2 invs) =
      recordKeys unicodeLower (init stub0 [a]).2 invs := by
    rw [heq]; rfl
  exact ⟨heq1, fun k => by rw [heq1]⟩

theorem index_lists_written_records_witness :
    indexKeys (runAll id (init emptyStub ["5"]).2 sampleInvocations) =
      recordKeys id (init emptyStub ["5"]).2 sampleInvocations ∧
    ∀ k, k ∈ indexKeys (runAll id (init emptyStub ["5"]).2 sampleInvocations) ↔
      k ∈ recordKeys id (init emptyStub ["5"]).2 sampleInvocations :=
  index_lists_written_records id emptyStub "5" sampleInvocations
    ⟨fun _ => rfl, fun _ => rfl⟩ rfl (by decide)

theorem sampleInvocations_index :
    indexKeys (runAll id (init emptyStub ["5"]).2 sampleInvocations) =
      ["1700000000000", "1700000000004"] := by
  decide

/-! ## `Atoi` undoes `Itoa` -/

theorem digitChar_val (n : Nat) : (digitChar n).toNat - 48 = n % 10 := by
  have h : ∀ m : Nat, m < 10 → (Char.ofNat (48 + m)).toNat - 48 = m := by decide
  exact h (n % 10) (Nat.mod_lt n (by decide))

theorem digitsValue_append (xs : List Char) (c : Char) (hc : isDigit c = true) :
    ∀ acc, digitsValue (xs ++ [c]) acc =
      (digitsValue xs acc).map (fun v => v * 10 + (c.toNat - 48)) := by
  induction xs with
  | nil => intro acc; simp [digitsValue, hc]
  | cons x xs ih =>
    intro acc
    by_cases hx : isDigit x = true
    · simp [digitsValue, hx, ih]
    · simp [digitsValue, hx]

theorem digitsValue_natDigits (fuel : Nat) :
    ∀ n, n < fuel → digitsValue (natDigits fuel n) 0 = some n := by
  induction fuel with
  | zero => intro n h; omega
  | succ f ih =>
    intro n h
    unfold natDigits
    split_ifs with hlt
    · have hmod : n % 10 = n := Nat.mod_eq_of_lt hlt
      simp [digitsValue, isDigit_digitChar, digitChar_val, hmod]
    · have hdiv : n / 10 < f := by omega
      rw [digitsValue_append _ _ (isDigit_digitChar n), ih _ hdiv, digitChar_val]
      simp only [Option.map_some']
      congr 1
      omega

theorem natDigits_ne_nil (fuel n : Nat) (h : 0 < fuel) : natDigits fuel n ≠ [] := by
  cases fuel with
  | zero => omega
  | succ f =>
    unfold natDigits
    split_ifs <;> simp

theorem parseMagnitude_range (neg : Bool) (ds : List Char) (v : Int)
    (h : parseMagnitude neg ds = some v) :
    - (2 : Int) ^ 63 ≤ v ∧ v ≤ (2 : Int) ^ 63 - 1 := by
  unfold parseMagnitude at h
  cases ds with
  | nil => cases h
  | cons d ds =>
    simp only at h
    cases hv : digitsValue (d :: ds) 0 with
    | none => rw [hv] at h; cases h
    | some n =>
      rw [hv] at h
      simp only at h
      cases neg with
      | true =>
        simp only [if_true] at h
        split_ifs at h with hr
        cases h
        constructor <;> omega
      | false =>
        simp only [Bool.false_eq_true, if_false] at h
        split_ifs at h with hr
        cases h
        constructor <;> omega

theorem Atoi_range (s : String) (v : Int) (h : Atoi s = some v) :
    - (2 : Int) ^ 63 ≤ v ∧ v ≤ (2 : Int) ^ 63 - 1 := by
  unfold Atoi at h
  split at h
  · cases h
  · split_ifs at h <;> exact parseMagnitude_range _ _ v h

theorem natDigits_head_not_sign (fuel n : Nat) (h : 0 < fuel) :
    ∃ d ds, natDigits fuel n = d :: ds ∧ d ≠ '-' ∧ d ≠ '+' := by
  cases hd : natDigits fuel n with
  | nil => exact absurd hd (natDigits_ne_nil fuel n h)
  | cons d ds =>
    have hdig : isDigit d = true :=
      isDigit_of_mem_natDigits fuel n d (by rw [hd]; exact List.mem_cons_self _ _)
    refine ⟨d, ds, rfl, ?_, ?_⟩
    · intro hc; rw [hc] at hdig; exact absurd hdig (by decide)
    · intro hc; rw [hc] at hdig; exact absurd hdig (by decide)

/-- On the range of Go's `int`, `Atoi` reads back what `Itoa` wrote. -/
theorem Atoi_Itoa (v : Int) (hlo : - (2 : Int) ^ 63 ≤ v) (hhi : v ≤ (2 : Int) ^ 63 - 1) :
    Atoi (Itoa v) = some v := by
  have hval := digitsValue_natDigits (v.natAbs + 1) v.natAbs (Nat.lt_succ_self _)
  obtain ⟨d, ds, hd, hm, hp⟩ := natDigits_head_not_sign (v.natAbs + 1) v.natAbs (Nat.succ_pos _)
  unfold Itoa FormatInt Atoi
  by_cases hneg : v < 0
  · rw [if_pos hneg]
    simp only [if_true]
    unfold parseMagnitude
    rw [hd] at hval ⊢
    simp only [hval, if_true]
    have h1 : v.natAbs ≤ 2 ^ 63 := by omega
    rw [if_pos h1]
    congr 1
    omega
  · rw [if_neg hneg]
    simp only [hd, if_neg hm, if_neg hp]
    unfold parseMagnitude
    rw [hd] at hval
    simp only [hval, Bool.false_eq_true, if_false]
    have h1 : v.natAbs ≤ 2 ^ 63 - 1 := by omega
    rw [if_pos h1]
    congr 1
    omega

/-! ## Scanning a decimal string as a JSON number -/

theorem natDigits_shape (fuel : Nat) :
    ∀ n, n < fuel → ∃ d ds, natDigits fuel n = d :: ds ∧ (d = '0' → ds = []) := by
  have hzero : ∀ n, digitChar n = '0' → n % 10 = 0 := by
    intro n h
    have := digitChar_val n
    rw [h] at this
    exact this.symm
  suffices hs : ∀ n, n < fuel →
      ∃ d ds, natDigits fuel n = d :: ds ∧ (d = '0' → n = 0 ∧ ds = []) by
    intro n hn
    obtain ⟨d, ds, h1, h2⟩ := hs n hn
    exact ⟨d, ds, h1, fun h => (h2 h).2⟩
  induction fuel with
  | zero => intro n h; omega
  | succ f ih =>
    intro n h
    unfold natDigits
    split_ifs with hlt
    · refine ⟨digitChar n, [], rfl, fun h0 => ⟨?_, rfl⟩⟩
      have := hzero n h0
      omega
    · have hdiv : n / 10 < f := by omega
      obtain ⟨d, ds, hd, hz⟩ := ih (n / 10) hdiv
      refine ⟨d, ds ++ [digitChar n], by rw [hd]; rfl, fun h0 => ?_⟩
      have := (hz h0).1
      omega

theorem scanDigits_append (ds : List Char) (c : Char) (more : List Char)
    (hds : ∀ x ∈ ds, isDigit x = true) (hc : isDigit c = false) :
    scanDigits (ds ++ c :: more) = (ds, c :: more) := by
  induction ds with
  | nil => simp [scanDigits, hc]
  | cons x xs ih =>
    have hx : isDigit x = true := hds x (List.mem_cons_self _ _)
    have ih1 := ih (fun y hy => hds y (List.mem_cons_of_mem _ hy))
    simp [scanDigits, hx, ih1]

theorem scanIntPart_natDigits (n : Nat) (more : List Char) :
    scanIntPart (natDigits (n + 1) n ++ ',' :: more) =
      some (natDigits (n + 1) n, ',' :: more) := by
  obtain ⟨d, ds, hd, hz⟩ := natDigits_shape (n + 1) n (Nat.lt_succ_self _)
  have hall : ∀ x ∈ natDigits (n + 1) n, isDigit x = true :=
    fun x hx => isDigit_of_mem_natDigits _ _ x hx
  rw [hd] at hall ⊢
  have hcomma : isDigit ',' = false := by decide
  by_cases h0 : d = '0'
  · rw [hz h0, h0]
    simp [scanIntPart]
  · have hdd : isDigit d = true := hall d (List.mem_cons_self _ _)
    have hsd := scanDigits_append ds ',' more
      (fun y hy => hall y (List.mem_cons_of_mem _ hy)) hcomma
    simp [scanIntPart, h0, hdd, hsd]

theorem scanNumber_FormatInt (i : Int) (more : List Char) :
    scanNumber ((FormatInt i).data ++ ',' :: more) = some ((FormatInt i).data, ',' :: more) := by
  have hip := scanIntPart_natDigits i.natAbs more
  obtain ⟨d, ds, hd, hm, _⟩ :=
    natDigits_head_not_sign (i.natAbs + 1) i.natAbs (Nat.succ_pos _)
  have hfrac : scanFraction (',' :: more) = some ([], ',' :: more) := by
    simp [scanFraction]
  have hexp : scanExponent (',' :: more) = some ([], ',' :: more) := by
    simp [scanExponent]
  unfold FormatInt
  by_cases hneg : i < 0
  · rw [if_pos hneg]
    simp [scanNumber, hip, hfrac, hexp]
  · rw [if_neg hneg]
    rw [hd] at hip ⊢
    simp only [List.cons_append] at hip
    simp [scanNumber, hm, hip, hfrac, hexp]

theorem parseValue_FormatInt (depth : Nat) (i : Int) (more : List Char) :
    parseValue (depth + 1) ((FormatInt i).data ++ ',' :: more) =
      some (JSONValue.number (FormatInt i), ',' :: more) := by
  have hnum := scanNumber_FormatInt i more
  have hhead : ∃ c cs, (FormatInt i).data = c :: cs ∧ (c = '-' ∨ isDigit c = true) := by
    cases hd : (FormatInt i).data with
    | nil =>
      exfalso
      unfold FormatInt at hd
      by_cases hneg : i < 0
      · rw [if_pos hneg] at hd
        simp at hd
      · rw [if_neg hneg] at hd
        exact natDigits_ne_nil _ _ (Nat.succ_pos _) hd
    | cons c cs =>
      exact ⟨c, cs, rfl, mem_FormatInt i c (by rw [hd]; exact List.mem_cons_self _ _)⟩
  obtain ⟨c, cs, hcs, hc⟩ := hhead
  rw [hcs] at hnum ⊢
  have h1 : c ≠ lbrace := by
    rintro rfl; rcases hc with h | h <;> exact absurd h (by decide)
  have h2 : c ≠ '[' := by
    rintro rfl; rcases hc with h | h <;> exact absurd h (by decide)
  have h3 : c ≠ dquote := by
    rintro rfl; rcases hc with h | h <;> exact absurd h (by decide)
  simp only [List.cons_append] at hnum ⊢
  simp only [parseValue, if_neg h1, if_neg h2, if_neg h3, if_pos hc, hnum]
  simp [← hcs]

/-! ## Decoding a record whose fields need no escaping -/

theorem plainChars_iff (cs : List Char) :
    plainChars cs = true ↔ ∀ c ∈ cs, c ≠ dquote ∧ c ≠ backslash ∧ 32 ≤ c.toNat := by
  simp [plainChars, List.all_eq_true, and_assoc]

theorem scanString_plain (cs rest : List Char) (h : plainChars cs = true) :
    ∀ fuel, cs.length < fuel → scanString fuel (cs ++ dquote :: rest) = some (cs, rest) := by
  rw [plainChars_iff] at h
  induction cs with
  | nil =>
    intro fuel hf
    cases fuel with
    | zero => omega
    | succ f => simp [scanString]
  | cons c cs ih =>
    intro fuel hf
    cases fuel with
    | zero => omega
    | succ f =>
      have hc := h c (List.mem_cons_self _ _)
      have hf1 : cs.length < f := by simpa using hf
      rw [List.cons_append, scanString_safe c _ f hc.1 hc.2.1 hc.2.2,
        ih (fun x hx => h x (List.mem_cons_of_mem _ hx)) f hf1]
      rfl

theorem parseValue_plain_string (depth : Nat) (val rest : List Char)
    (h : plainChars val = true) :
    parseValue (depth + 1) (dquote :: (val ++ dquote :: rest)) =
      some (JSONValue.string (String.mk val), rest) := by
  have h1 : dquote ≠ lbrace := by decide
  have h2 : dquote ≠ '[' := by decide
  have hlen : val.length < (val ++ dquote :: rest).length + 1 := by
    simp only [List.length_append, List.length_cons]
    omega
  simp only [parseValue, if_neg h1, if_neg h2, if_true]
  rw [scanString_plain val rest h _ hlen]
  rfl

theorem parseMembers_step (pv : List Char → Option (JSONValue × List Char)) (n : Nat)
    (cs afterQuote key r1 r2 r3 r4 : List Char) (v : JSONValue) (c : Char)
    (h1 : skipSpace cs = dquote :: afterQuote)
    (h2 : scanString (afterQuote.length + 1) afterQuote = some (key, r1))
    (h3 : skipSpace r1 = ':' :: r2)
    (h4 : pv (skipSpace r2) = some (v, r3))
    (h5 : skipSpace r3 = c :: r4) :
    parseMembers pv (n + 1) cs =
      if c = ',' then (parseMembers pv n r4).map (fun p => ((String.mk key, v) :: p.1, p.2))
      else if c = rbrace then some ([(String.mk key, v)], r4)
      else none := by
  simp only [parseMembers, h1, h2, h3, h4, h5, if_true]

theorem skipSpace_space (cs : List Char) : skipSpace (' ' :: cs) = skipSpace cs := by
  simp [skipSpace, isSpace]

theorem parseMembers_strMember_more (depth n : Nat) (cs key val more : List Char)
    (hcs : skipSpace cs = strMember key val (',' :: ' ' :: more))
    (hkey : plainChars key = true) (hval : plainChars val = true) :
    parseMembers (parseValue (depth + 1)) (n + 1) cs =
      (parseMembers (parseValue (depth + 1)) n (' ' :: more)).map
        (fun p => ((String.mk key, JSONValue.string (String.mk val)) :: p.1, p.2)) := by
  have hq : isSpace dquote = false := by decide
  have hcolon : isSpace ':' = false := by decide
  have hcomma : isSpace ',' = false := by decide
  have hk : key.length <
      (key ++ dquote :: ':' :: ' ' :: dquote :: (val ++ dquote :: ',' :: ' ' :: more)).length
        + 1 := by
    simp only [List.length_append, List.length_cons]
    omega
  have h := parseMembers_step (parseValue (depth + 1)) n
    cs _ key _ _ _ (' ' :: more)
    (JSONValue.string (String.mk val)) ','
    hcs
    (scanString_plain key _ hkey _ hk)
    (skipSpace_cons _ _ hcolon)
    (by rw [skipSpace_space, skipSpace_cons _ _ hq]; exact parseValue_plain_string depth val _ hval)
    (skipSpace_cons _ _ hcomma)
  rw [h, if_pos rfl]

theorem parseMembers_strMember_last (depth n : Nat) (cs key val rest : List Char)
    (hcs : skipSpace cs = strMember key val (rbrace :: rest))
    (hkey : plainChars key = true) (hval : plainChars val = true) :
    parseMembers (parseValue (depth + 1)) (n + 1) cs =
      some ([(String.mk key, JSONValue.string (String.mk val))], rest) := by
  have hq : isSpace dquote = false := by decide
  have hcolon : isSpace ':' = false := by decide
  have hbrace : isSpace rbrace = false := by decide
  have hne : rbrace ≠ ',' := by decide
  have hk : key.length <
      (key ++ dquote :: ':' :: ' ' :: dquote :: (val ++ dquote :: rbrace :: rest)).length
        + 1 := by
    simp only [List.length_append, List.length_cons]
    omega
  have h := parseMembers_step (parseValue (depth + 1)) n
    cs _ key _ _ _ rest
    (JSONValue.string (String.mk val)) rbrace
    hcs
    (scanString_plain key _ hkey _ hk)
    (skipSpace_cons _ _ hcolon)
    (by rw [skipSpace_space, skipSpace_cons _ _ hq]; exact parseValue_plain_string depth val _ hval)
    (skipSpace_cons _ _ hbrace)
  rw [h, if_neg hne, if_pos rfl]

theorem parseMembers_numMember_more (depth n : Nat) (cs key : List Char) (i : Int)
    (more : List Char)
    (hcs : skipSpace cs = numMember key (FormatInt i).data (',' :: ' ' :: more))
    (hkey : plainChars key = true) :
    parseMembers (parseValue (depth + 1)) (n + 1) cs =
      (parseMembers (parseValue (depth + 1)) n (' ' :: more)).map
        (fun p => ((String.mk key, JSONValue.number (FormatInt i)) :: p.1, p.2)) := by
  have hq : isSpace dquote = false := by decide
  have hcolon : isSpace ':' = false := by decide
  have hcomma : isSpace ',' = false := by decide
  have hk : key.length <
      (key ++ dquote :: ':' :: ' ' :: ((FormatInt i).data ++ ',' :: ' ' :: more)).length
        + 1 := by
    simp only [List.length_append, List.length_cons]
    omega
  have hsp : skipSpace ((FormatInt i).data ++ ',' :: ' ' :: more) =
      (FormatInt i).data ++ ',' :: ' ' :: more := by
    cases hd : (FormatInt i).data with
    | nil => exact skipSpace_cons _ _ hcomma
    | cons c cs =>
      have hc := mem_FormatInt i c (by rw [hd]; exact List.mem_cons_self _ _)
      have : isSpace c = false := by
        rcases hc with h | h
        · rw [h]; decide
        · cases hs : isSpace c with
          | false => rfl
          | true =>
            exfalso
            simp only [isDigit, isSpace, Bool.and_eq_true, Bool.or_eq_true,
              decide_eq_true_eq] at h hs
            omega
      exact skipSpace_cons _ _ this
  have h := parseMembers_step (parseValue (depth + 1)) n
    cs _ key _ _ _ (' ' :: more)
    (JSONValue.number (FormatInt i)) ','
    hcs
    (scanString_plain key _ hkey _ hk)
    (skipSpace_cons _ _ hcolon)
    (by rw [skipSpace_space, hsp]; exact parseValue_FormatInt depth i _)
    (skipSpace_cons _ _ hcomma)
  rw [h, if_pos rfl]

theorem skipSpace_strMember (key val tail : List Char) :
    skipSpace (strMember key val tail) = strMember key val tail ∧
    skipSpace (' ' :: strMember key val tail) = strMember key val tail := by
  have hq : isSpace dquote = false := by decide
  refine ⟨skipSpace_cons _ _ hq, ?_⟩
  rw [skipSpace_space]
  exact skipSpace_cons _ _ hq

theorem skipSpace_numMember (key num tail : List Char) :
    skipSpace (' ' :: numMember key num tail) = numMember key num tail := by
  have hq : isSpace dquote = false := by decide
  rw [skipSpace_space]
  exact skipSpace_cons _ _ hq

theorem tradeString_data (tradedate valuedate operation : String) (quantity : Int)
    (security price counterparty user timestampAsString : String)
    (settled needsrevision : Int) :
    (tradeString tradedate valuedate operation quantity security price counterparty user
      timestampAsString settled needsrevision).data =
    lbrace :: strMember "tradedate".data tradedate.data (',' :: ' ' ::
      strMember "valuedate".data valuedate.data (',' :: ' ' ::
      strMember "operation".data operation.data (',' :: ' ' ::
      numMember "quantity".data (FormatInt quantity).data (',' :: ' ' ::
      strMember "security".data security.data (',' :: ' ' ::
      strMember "price".data price.data (',' :: ' ' ::
      strMember "counterparty".data counterparty.data (',' :: ' ' ::
      strMember "user".data user.data (',' :: ' ' ::
      strMember "timestamp".data timestampAsString.data (',' :: ' ' ::
      strMember "settled".data (FormatInt settled).data (',' :: ' ' ::
      strMember "needsrevision".data (FormatInt needsrevision).data [rbrace])))))))))) := by
  simp only [tradeString, Itoa, String.data_append, strMember, numMember]
  simp [lbrace, rbrace, dquote]

theorem plainChars_FormatInt (i : Int) : plainChars (FormatInt i).data = true := by
  rw [plainChars_iff]
  intro c hc
  have hplain : c = '-' ∨ isDigit c = true := mem_FormatInt i c hc
  refine ⟨?_, ?_, ?_⟩
  · rintro rfl; rcases hplain with h | h <;> exact absurd h (by decide)
  · rintro rfl; rcases hplain with h | h <;> exact absurd h (by decide)
  · rcases hplain with h | h
    · rw [h]; decide
    · simp only [isDigit, Bool.and_eq_true, decide_eq_true_eq] at h
      omega

theorem parseValue_object (depth : Nat) (c1 : Char) (rest1 : List Char)
    (hs : isSpace c1 = false) (hc : c1 ≠ rbrace) :
    parseValue (depth + 1) (lbrace :: c1 :: rest1) =
      (parseMembers (parseValue depth) ((c1 :: rest1).length + 1) (c1 :: rest1)).map
        (fun p => (JSONValue.object p.1, p.2)) := by
  simp only [parseValue, if_true, skipSpace_cons _ _ hs, if_neg hc]

theorem parseMembers_record (depth m : Nat) (td vd op sec pr cp us ts : List Char)
    (q st nr : Int)
    (htd : plainChars td = true) (hvd : plainChars vd = true) (hop : plainChars op = true)
    (hsec : plainChars sec = true) (hpr : plainChars pr = true) (hcp : plainChars cp = true)
    (hus : plainChars us = true) (hts : plainChars ts = true) :
    parseMembers (parseValue (depth + 1)) (m + 11)
      (strMember "tradedate".data td (',' :: ' ' ::
        strMember "valuedate".data vd (',' :: ' ' ::
        strMember "operation".data op (',' :: ' ' ::
        numMember "quantity".data (FormatInt q).data (',' :: ' ' ::
        strMember "security".data sec (',' :: ' ' ::
        strMember "price".data pr (',' :: ' ' ::
        strMember "counterparty".data cp (',' :: ' ' ::
        strMember "user".data us (',' :: ' ' ::
        strMember "timestamp".data ts (',' :: ' ' ::
        strMember "settled".data (FormatInt st).data (',' :: ' ' ::
        strMember "needsrevision".data (FormatInt nr).data [rbrace]))))))))))) =
      some ([("tradedate", JSONValue.string (String.mk td)),
             ("valuedate", JSONValue.string (String.mk vd)),
             ("operation", JSONValue.string (String.mk op)),
             ("quantity", JSONValue.number (FormatInt q)),
             ("security", JSONValue.string (String.mk sec)),
             ("price", JSONValue.string (String.mk pr)),
             ("counterparty", JSONValue.string (String.mk cp)),
             ("user", JSONValue.string (String.mk us)),
             ("timestamp", JSONValue.string (String.mk ts)),
             ("settled", JSONValue.string (FormatInt st)),
             ("needsrevision", JSONValue.string (FormatInt nr))], []) := by
  rw [parseMembers_strMember_more depth (m + 10) _ _ _ _ (skipSpace_strMember _ _ _).1
        (by decide) htd,
      parseMembers_strMember_more depth (m + 9) _ _ _ _ (skipSpace_strMember _ _ _).2
        (by decide) hvd,
      parseMembers_strMember_more depth (m + 8) _ _ _ _ (skipSpace_strMember _ _ _).2
        (by decide) hop,
      parseMembers_numMember_more depth (m + 7) _ _ _ _ (skipSpace_numMember _ _ _)
        (by decide),
      parseMembers_strMember_more depth (m + 6) _ _ _ _ (skipSpace_strMember _ _ _).2
        (by decide) hsec,
      parseMembers_strMember_more depth (m + 5) _ _ _ _ (skipSpace_strMember _ _ _).2
        (by decide) hpr,
      parseMembers_strMember_more depth (m + 4) _ _ _ _ (skipSpace_strMember _ _ _).2
        (by decide) hcp,
      parseMembers_strMember_more depth (m + 3) _ _ _ _ (skipSpace_strMember _ _ _).2
        (by decide) hus,
      parseMembers_strMember_more depth (m + 2) _ _ _ _ (skipSpace_strMember _ _ _).2
        (by decide) hts,
      parseMembers_strMember_more depth (m + 1) _ _ _ _ (skipSpace_strMember _ _ _).2
        (by decide) (plainChars_FormatInt st),
      parseMembers_strMember_last depth m _ _ _ _ (skipSpace_strMember _ _ _).2
        (by decide) (plainChars_FormatInt nr)]
  rfl

/-- The JSON document that the stored text of a trade decodes to when the fields need
no escaping. -/
theorem parseJSON_tradeString (tradedate valuedate operation : String) (quantity : Int)
    (security price counterparty user timestampAsString : String)
    (settled needsrevision : Int)
    (htd : plainChars tradedate.data = true) (hvd : plainChars valuedate.data = true)
    (hop : plainChars operation.data = true) (hsec : plainChars security.data = true)
    (hpr : plainChars price.data = true) (hcp : plainChars counterparty.data = true)
    (hus : plainChars user.data = true) (hts : plainChars timestampAsString.data = true) :
    parseJSON (tradeString tradedate valuedate operation quantity security price counterparty
        user timestampAsString settled needsrevision) =
      some (JSONValue.object
        [("tradedate", JSONValue.string tradedate),
         ("valuedate", JSONValue.string valuedate),
         ("operation", JSONValue.string operation),
         ("quantity", JSONValue.number (Itoa quantity)),
         ("security", JSONValue.string security),
         ("price", JSONValue.string price),
         ("counterparty", JSONValue.string counterparty),
         ("user", JSONValue.string user),
         ("timestamp", JSONValue.string timestampAsString),
         ("settled", JSONValue.string (Itoa settled)),
         ("needsrevision", JSONValue.string (Itoa needsrevision))]) := by
  have hb : isSpace lbrace = false := by decide
  have hq : isSpace dquote = false := by decide
  have hne : dquote ≠ rbrace := by decide
  have hrec := fun depth m => parseMembers_record depth m tradedate.data valuedate.data
    operation.data security.data price.data counterparty.data user.data
    timestampAsString.data quantity settled needsrevision htd hvd hop hsec hpr hcp hus hts
  unfold parseJSON
  rw [tradeString_data, skipSpace_cons _ _ hb]
  generalize hM : strMember "tradedate".data tradedate.data (',' :: ' ' ::
      strMember "valuedate".data valuedate.data (',' :: ' ' ::
      strMember "operation".data operation.data (',' :: ' ' ::
      numMember "quantity".data (FormatInt quantity).data (',' :: ' ' ::
      strMember "security".data security.data (',' :: ' ' ::
      strMember "price".data price.data (',' :: ' ' ::
      strMember "counterparty".data counterparty.data (',' :: ' ' ::
      strMember "user".data user.data (',' :: ' ' ::
      strMember "timestamp".data timestampAsString.data (',' :: ' ' ::
      strMember "settled".data (FormatInt settled).data (',' :: ' ' ::
      strMember "needsrevision".data (FormatInt needsrevision).data [rbrace]))))))))))
    = M at hrec ⊢
  have hlen : ∃ m, M.length = m + 10 := by
    refine ⟨M.length - 10, ?_⟩
    have h9 : ("tradedate" : String).data.length = 9 := by decide
    have : 10 ≤ M.length := by
      rw [← hM]
      simp only [strMember, List.length_cons, List.length_append]
      omega
    omega
  obtain ⟨m, hm⟩ := hlen
  have hobj : parseValue (M.length + 1 + 1) (lbrace :: M) =
      (parseMembers (parseValue (M.length + 1)) (M.length + 1) M).map
        (fun p => (JSONValue.object p.1, p.2)) := by
    rw [← hM]
    exact parseValue_object _ dquote _ hq hne
  rw [show (lbrace :: M).length + 1 = M.length + 1 + 1 from rfl, hobj, hm,
    show m + 10 + 1 = m + 11 from rfl, hrec]
  rfl

theorem create_and_submit_trade_stores_record (unicodeLower : Char → Char) (now : Int)
    (stub : ChaincodeStub) (args : List String) (quantity settled needsrevision : Int)
    (hlen : args.length = 11)
    (h3 : Atoi (args.getD 3 "") = some quantity)
    (h9 : Atoi (args.getD 9 "") = some settled)
    (h10 : Atoi (args.getD 10 "") = some needsrevision)
    (hputK : stub.putErr (FormatInt (makeTimestamp now)) = none) :
    (create_and_submit_trade unicodeLower now stub args).2.state (FormatInt (makeTimestamp now))
      = some (tradeString (ToLower unicodeLower (args.getD 0 ""))
          (ToLower unicodeLower (args.getD 1 "")) (ToLower unicodeLower (args.getD 2 ""))
          quantity (ToLower unicodeLower (args.getD 4 "")) (ToLower unicodeLower (args.getD 5 ""))
          (ToLower unicodeLower (args.getD 6 "")) (ToLower unicodeLower (args.getD 7 ""))
          (FormatInt (makeTimestamp now)) settled needsrevision) := by
  have hlen1 : ¬ args.length ≠ 11 := fun h => h hlen
  unfold create_and_submit_trade
  rw [if_neg hlen1]
  simp only [h3, h9, h10]
  rw [PutState_ok _ _ _ hputK]
  cases hg : stub.getErr tradeIndexStr with
  | some err => simp [ChaincodeStub.GetState, hg]
  | none =>
    cases hp : stub.putErr tradeIndexStr <;>
      simp [ChaincodeStub.GetState, ChaincodeStub.PutState, hg, hp, FormatInt_ne_tradeIndexStr]

/-- The part of C1 that holds: when the seven lower-cased text fields contain no double
quote, no backslash and no control character, the value stored under the timestamp key
decodes as a JSON object whose text fields are the lower-cased arguments, whose quantity
is a number that reads back as the integer parsed from `args[3]`, and whose settled and
needsrevision fields are the decimal strings of the integers parsed from `args[9]` and
`args[10]`. -/
theorem plain_record_decodes (unicodeLower : Char → Char) (now : Int)
    (stub : ChaincodeStub) (args : List String) (quantity settled needsrevision : Int)
    (hlen : args.length = 11)
    (h3 : Atoi (args.getD 3 "") = some quantity)
    (h9 : Atoi (args.getD 9 "") = some settled)
    (h10 : Atoi (args.getD 10 "") = some needsrevision)
    (hputK : stub.putErr (FormatInt (makeTimestamp now)) = none)
    (hplain : ∀ i ∈ [0, 1, 2, 4, 5, 6, 7],
      plainChars (ToLower unicodeLower (args.getD i "")).data = true) :
    stringField ((create_and_submit_trade unicodeLower now stub args).2.state
        (FormatInt (makeTimestamp now))) "tradedate" = some (ToLower unicodeLower (args.getD 0 "")) ∧
    stringField ((create_and_submit_trade unicodeLower now stub args).2.state
        (FormatInt (makeTimestamp now))) "valuedate" = some (ToLower unicodeLower (args.getD 1 "")) ∧
    stringField ((create_and_submit_trade unicodeLower now stub args).2.state
        (FormatInt (makeTimestamp now))) "operation" = some (ToLower unicodeLower (args.getD 2 "")) ∧
    (∃ literal, numberField ((create_and_submit_trade unicodeLower now stub args).2.state
        (FormatInt (makeTimestamp now))) "quantity" = some literal ∧
      Atoi literal = some quantity) ∧
    stringField ((create_and_submit_trade unicodeLower now stub args).2.state
        (FormatInt (makeTimestamp now))) "security" = some (ToLower unicodeLower (args.getD 4 "")) ∧
    stringField ((create_and_submit_trade unicodeLower now stub args).2.state
        (FormatInt (makeTimestamp now))) "price" = some (ToLower unicodeLower (args.getD 5 "")) ∧
    stringField ((create_and_submit_trade unicodeLower now stub args).2.state
        (FormatInt (makeTimestamp now))) "counterparty"
      = some (ToLower unicodeLower (args.getD 6 "")) ∧
    stringField ((create_and_submit_trade unicodeLower now stub args).2.state
        (FormatInt (makeTimestamp now))) "user" = some (ToLower unicodeLower (args.getD 7 "")) ∧
    stringField ((create_and_submit_trade unicodeLower now stub args).2.state
        (FormatInt (makeTimestamp now))) "timestamp" = some (FormatInt (makeTimestamp now)) ∧
    stringField ((create_and_submit_trade unicodeLower now stub args).2.state
        (FormatInt (makeTimestamp now))) "settled" = some (Itoa settled) ∧
    stringField ((create_and_submit_trade unicodeLower now stub args).2.state
        (FormatInt (makeTimestamp now))) "needsrevision" = some (Itoa needsrevision) := by
  have hdoc := parseJSON_tradeString (ToLower unicodeLower (args.getD 0 ""))
    (ToLower unicodeLower (args.getD 1 "")) (ToLower unicodeLower (args.getD 2 ""))
    quantity (ToLower unicodeLower (args.getD 4 "")) (ToLower unicodeLower (args.getD 5 ""))
    (ToLower unicodeLower (args.getD 6 "")) (ToLower unicodeLower (args.getD 7 ""))
    (FormatInt (makeTimestamp now)) settled needsrevision
    (hplain 0 (by decide)) (hplain 1 (by decide)) (hplain 2 (by decide))
    (hplain 4 (by decide)) (hplain 5 (by decide)) (hplain 6 (by decide))
    (hplain 7 (by decide)) (plainChars_FormatInt _)
  have hq := Atoi_range _ _ h3
  rw [create_and_submit_trade_stores_record unicodeLower now stub args quantity settled
    needsrevision hlen h3 h9 h10 hputK]
  refine ⟨?_, ?_, ?_, ⟨Itoa quantity, ?_, Atoi_Itoa quantity hq.1 hq.2⟩, ?_, ?_, ?_, ?_, ?_, ?_, ?_⟩ <;>
    simp [-List.getD_eq_getElem?_getD, stringField, numberField, hdoc, lookupMember]

/-! ## Store failures that are reported -/

/-- The store failures that the chaincode does report: a failed `PutState` in `init` and
in `write`, and in `create_and_submit_trade` a failed `PutState` of the record or a
failed `GetState` of the index. -/
theorem store_failures_reported (unicodeLower : Char → Char) (now : Int)
    (stub : ChaincodeStub) (err : String) :
    (∀ a n, Atoi a = some n → stub.putErr "abc" = some err →
      (init stub [a]).1 = Except.error err) ∧
    (∀ a n, Atoi a = some n → stub.putErr "abc" = none →
      stub.putErr tradeIndexStr = some err → (init stub [a]).1 = Except.error err) ∧
    (∀ k v, stub.putErr k = some err → (write stub [k, v]).1 = Except.error err) ∧
    (∀ args q st nr, args.length = 11 → Atoi (args.getD 3 "") = some q →
      Atoi (args.getD 9 "") = some st → Atoi (args.getD 10 "") = some nr →
      stub.putErr (FormatInt (makeTimestamp now)) = some err →
      (create_and_submit_trade unicodeLower now stub args).1 = Except.error err) ∧
    (∀ args q st nr, args.length = 11 → Atoi (args.getD 3 "") = some q →
      Atoi (args.getD 9 "") = some st → Atoi (args.getD 10 "") = some nr →
      stub.putErr (FormatInt (makeTimestamp now)) = none →
      stub.getErr tradeIndexStr = some err →
      (create_and_submit_trade unicodeLower now stub args).1 =
        Except.error "Failed to get trade index") := by
  refine ⟨?_, ?_, ?_, ?_, ?_⟩
  · intro a n ha hp
    simp [init, ha, ChaincodeStub.PutState, hp]
  · intro a n ha hp hi
    simp [init, ha, ChaincodeStub.PutState, hp, hi]
  · intro k v hp
    simp [write, ChaincodeStub.PutState, hp]
  · intro args q st nr hlen h3 h9 h10 hp
    have hlen1 : ¬ args.length ≠ 11 := fun h => h hlen
    unfold create_and_submit_trade
    rw [if_neg hlen1]
    simp only [h3, h9, h10]
    rw [PutState_fail _ _ _ err hp]
  · intro args q st nr hlen h3 h9 h10 hp hg
    have hlen1 : ¬ args.length ≠ 11 := fun h => h hlen
    unfold create_and_submit_trade
    rw [if_neg hlen1]
    simp only [h3, h9, h10]
    rw [PutState_ok _ _ _ hp]
    simp [ChaincodeStub.GetState, hg]

/-! ## The stored record -/

/-- A benign call: the record stored under the timestamp key decodes to the lower-cased
fields, the parsed quantity and the decimal strings of the two flags. -/
theorem sampleArgs_record_decodes :
    stringField ((create_and_submit_trade id 1700000000000123456 emptyStub sampleArgs).2.state
      "1700000000000") "tradedate" = some "2016-01-01" ∧
    stringField ((create_and_submit_trade id 1700000000000123456 emptyStub sampleArgs).2.state
      "1700000000000") "operation" = some "buy" ∧
    numberField ((create_and_submit_trade id 1700000000000123456 emptyStub sampleArgs).2.state
      "1700000000000") "quantity" = some "100" ∧
    stringField ((create_and_submit_trade id 1700000000000123456 emptyStub sampleArgs).2.state
      "1700000000000") "needsrevision" = some "1" := by
  refine ⟨?_, ?_, ?_, ?_⟩ <;> decide

/-- C1, the failing case: with the valid arguments `quoteArgs`, whose trade date is
`a"b`, `create_and_submit_trade` succeeds and stores the quote unescaped; the stored
value is not a JSON document, so it decodes to no object and its "tradedate" field is
not the lower-cased argument. -/
theorem create_and_submit_trade_unescaped_quote :
    quoteArgs.length = 11 ∧
    Atoi (quoteArgs.getD 3 "") = some 100 ∧ Atoi (quoteArgs.getD 9 "") = some 0 ∧
    Atoi (quoteArgs.getD 10 "") = some 1 ∧
    (create_and_submit_trade id 1700000000000123456 emptyStub quoteArgs).1 = Except.ok none ∧
    (create_and_submit_trade id 1700000000000123456 emptyStub quoteArgs).2.state "1700000000000" =
      some ("\x7b\"tradedate\": \"a\"b\", \"valuedate\": \"2016-01-03\", \"operation\": \"buy\", "
        ++ "\"quantity\": 100, \"security\": \"ibm\", \"price\": \"12.5\", "
        ++ "\"counterparty\": \"bank\", \"user\": \"bob\", \"timestamp\": \"1700000000000\", "
        ++ "\"settled\": \"0\", \"needsrevision\": \"1\"\x7d") ∧
    ((create_and_submit_trade id 1700000000000123456 emptyStub quoteArgs).2.state
      "1700000000000").bind parseJSON = none ∧
    stringField ((create_and_submit_trade id 1700000000000123456 emptyStub quoteArgs).2.state
      "1700000000000") "tradedate" ≠ some (ToLower id (quoteArgs.getD 0 "")) := by
  refine ⟨by decide, by decide, by decide, by decide, rfl, by decide, ?_, by decide⟩
  have h : (((create_and_submit_trade id 1700000000000123456 emptyStub quoteArgs).2.state
      "1700000000000").bind parseJSON).isNone = true := by decide
  exact Option.isNone_iff_eq_none.mp h

/-! ## A failed record write -/

/-- C11: when the arguments are valid and the `PutState` of the record under the timestamp
key fails with `err`, `create_and_submit_trade` returns `err`, makes no call to the stub
on "_tradeindex" (its only call is the failed put on the timestamp key), and leaves the
world state, the value under "_tradeindex" included, as it was. -/
theorem create_and_submit_trade_record_put_fails (unicodeLower : Char → Char) (now : Int)
    (stub : ChaincodeStub) (args : List String) (quantity settled needsrevision : Int)
    (err : String)
    (hlen : args.length = 11)
    (h3 : Atoi (args.getD 3 "") = some quantity)
    (h9 : Atoi (args.getD 9 "") = some settled)
    (h10 : Atoi (args.getD 10 "") = some needsrevision)
    (hputK : stub.putErr (FormatInt (makeTimestamp now)) = some err) :
    (create_and_submit_trade unicodeLower now stub args).1 = Except.error err ∧
    (∀ op ∈ newOps stub (create_and_submit_trade unicodeLower now stub args).2,
      op.key = FormatInt (makeTimestamp now) ∧ op.key ≠ tradeIndexStr) ∧
    (create_and_submit_trade unicodeLower now stub args).2.state tradeIndexStr =
      stub.state tradeIndexStr ∧
    (create_and_submit_trade unicodeLower now stub args).2.state = stub.state := by
  have hlen1 : ¬ args.length ≠ 11 := fun h => h hlen
  unfold create_and_submit_trade
  rw [if_neg hlen1]
  simp only [h3, h9, h10]
  rw [PutState_fail _ _ _ err hputK]
  refine ⟨rfl, ?_, rfl, rfl⟩
  intro op hop
  simp only [newOps, List.drop_left, List.mem_singleton] at hop
  rw [hop]
  exact ⟨rfl, FormatInt_ne_tradeIndexStr _⟩

theorem create_and_submit_trade_record_put_fails_witness :
    (create_and_submit_trade id 1700000000000123456 recordPutFailsStub sampleArgs).1 =
      Except.error "ledger unavailable" ∧
    (∀ op ∈ newOps recordPutFailsStub
        (create_and_submit_trade id 1700000000000123456 recordPutFailsStub sampleArgs).2,
      op.key = FormatInt (makeTimestamp 1700000000000123456) ∧ op.key ≠ tradeIndexStr) ∧
    (create_and_submit_trade id 1700000000000123456 recordPutFailsStub sampleArgs).2.state
      tradeIndexStr = recordPutFailsStub.state tradeIndexStr ∧
    (create_and_submit_trade id 1700000000000123456 recordPutFailsStub sampleArgs).2.state =
      recordPutFailsStub.state :=
  create_and_submit_trade_record_put_fails id 1700000000000123456 recordPutFailsStub sampleArgs
    100 0 1 "ledger unavailable" (by decide) (by decide) (by decide) (by decide) (by decide)

/-! ## The caller's timestamp argument -/

/-- C13: two lists of 11 arguments that agree everywhere except at `args[8]`, run on
the same ledger with the same clock reading, give the same result and leave the same
stub: the creation timestamp comes from the clock alone. -/
theorem create_and_submit_trade_ignores_arg8 (unicodeLower : Char → Char) (now : Int)
    (stub : ChaincodeStub) (args1 args2 : List String)
    (hlen1 : args1.length = 11) (hlen2 : args2.length = 11)
    (hsame : ∀ i, i ≠ 8 → args1.getD i "" = args2.getD i "") :
    create_and_submit_trade unicodeLower now stub args1 =
      create_and_submit_trade unicodeLower now stub args2 := by
  unfold create_and_submit_trade
  rw [if_neg (fun h => h hlen1), if_neg (fun h => h hlen2)]
  rw [hsame 0 (by decide), hsame 1 (by decide), hsame 2 (by decide), hsame 3 (by decide),
    hsame 4 (by decide), hsame 5 (by decide), hsame 6 (by decide), hsame 7 (by decide),
    hsame 9 (by decide), hsame 10 (by decide)]

theorem create_and_submit_trade_ignores_arg8_witness :
    create_and_submit_trade id 1700000000000123456 emptyStub sampleArgs =
      create_and_submit_trade id 1700000000000123456 emptyStub sampleArgsOtherStamp :=
  create_and_submit_trade_ignores_arg8 id 1700000000000123456 emptyStub sampleArgs
    sampleArgsOtherStamp (by decide) (by decide) (by
      intro i hi
      match i with
      | 0 | 1 | 2 | 3 | 4 | 5 | 6 | 7 => rfl
      | 8 => exact absurd rfl hi
      | 9 | 10 => rfl
      | n + 11 => rfl)

/-! ## `write` and `init` in full -/

/-- C14: `write` returns an error exactly when the argument count is not 2 or the
`PutState` fails; with an argument count other than 2 the stub is returned untouched;
and when `write` succeeds with arguments `[k, v]` the ledger maps `k` to exactly `v` and
every other key to its previous value. -/
theorem write_spec (stub : ChaincodeStub) (args : List String) :
    ((∃ msg, (write stub args).1 = Except.error msg) ↔
      (args.length ≠ 2 ∨ stub.putErr (args.getD 0 "") ≠ none)) ∧
    (args.length ≠ 2 → (write stub args).2 = stub) ∧
    (∀ k v, args = [k, v] → (write stub args).1 = Except.ok none →
      (write stub args).2.state k = some v ∧
      ∀ other, other ≠ k → (write stub args).2.state other = stub.state other) := by
  refine ⟨?_, ?_, ?_⟩
  · unfold write
    by_cases hlen : args.length = 2
    · rw [if_neg (fun h => h hlen)]
      cases hp : stub.putErr (args.getD 0 "") with
      | none =>
        rw [PutState_ok _ _ _ hp]
        constructor
        · rintro ⟨msg, hmsg⟩; cases hmsg
        · rintro (h | h)
          · exact absurd hlen h
          · exact absurd rfl h
      | some err =>
        rw [PutState_fail _ _ _ err hp]
        exact ⟨fun _ => Or.inr (by simp), fun _ => ⟨err, rfl⟩⟩
    · rw [if_pos hlen]
      exact ⟨fun _ => Or.inl hlen, fun _ => ⟨_, rfl⟩⟩
  · intro hlen
    unfold write
    rw [if_pos hlen]
  · intro k v hargs hok
    subst hargs
    cases hp : stub.putErr k with
    | none =>
      have hw : write stub [k, v] = (Except.ok none,
          { stub with
            state := fun key => if key = k then some v else stub.state key
            ops := stub.ops ++ [StubOp.put k v] }) := by
        simp [write, ChaincodeStub.PutState, hp]
      rw [hw]
      exact ⟨if_pos rfl, fun other ho => if_neg ho⟩
    | some err =>
      have hw : (write stub [k, v]).1 = Except.error err := by
        simp [write, ChaincodeStub.PutState, hp]
      rw [hw] at hok
      cases hok

theorem write_spec_witness :
    (write emptyStub ["k", "v"]).2.state "k" = some "v" ∧
    ∀ other, other ≠ "k" → (write emptyStub ["k", "v"]).2.state other = emptyStub.state other :=
  (write_spec emptyStub ["k", "v"]).2.2 "k" "v" rfl rfl

/-- C15: with an empty argument list, or with an integer argument that does not parse,
`init` returns an error and hands back the stub untouched: neither "abc" nor
"_tradeindex" is written. -/
theorem init_rejects (stub : ChaincodeStub) (args : List String)
    (hbad : args = [] ∨ Atoi (args.getD 0 "") = none) :
    ∃ msg, init stub args = (Except.error msg, stub) := by
  unfold init
  by_cases hlen : args.length = 1
  · rw [if_neg (fun h => h hlen)]
    rcases hbad with h | h
    · rw [h] at hlen; cases hlen
    · rw [h]
      exact ⟨_, rfl⟩
  · rw [if_pos hlen]
    exact ⟨_, rfl⟩

theorem init_rejects_witness :
    (∃ msg, init emptyStub [] = (Except.error msg, emptyStub)) ∧
    (∃ msg, init emptyStub ["five"] = (Except.error msg, emptyStub)) :=
  ⟨init_rejects emptyStub [] (Or.inl rfl), init_rejects emptyStub ["five"] (Or.inr (by decide))⟩

/-! ## Frame -/

theorem create_and_submit_trade_frame (unicodeLower : Char → Char) (now : Int)
    (stub : ChaincodeStub) (args : List String) (key : String)
    (hk : key ≠ FormatInt (makeTimestamp now)) (hi : key ≠ tradeIndexStr) :
    (create_and_submit_trade unicodeLower now stub args).2.state key = stub.state key := by
  by_cases hbad : args.length ≠ 11 ∨ Atoi (args.getD 3 "") = none
      ∨ Atoi (args.getD 9 "") = none ∨ Atoi (args.getD 10 "") = none
  · obtain ⟨msg, hmsg⟩ := create_and_submit_trade_rejects unicodeLower now stub args hbad
    rw [hmsg]
  · simp only [not_or, not_not] at hbad
    obtain ⟨hlen, h3, h9, h10⟩ := hbad
    obtain ⟨q, h3⟩ := Option.ne_none_iff_exists'.mp h3
    obtain ⟨st, h9⟩ := Option.ne_none_iff_exists'.mp h9
    obtain ⟨nr, h10⟩ := Option.ne_none_iff_exists'.mp h10
    have hlen1 : ¬ args.length ≠ 11 := fun h => h hlen
    cases hp : stub.putErr (FormatInt (makeTimestamp now)) with
    | some err =>
      unfold create_and_submit_trade
      rw [if_neg hlen1]
      simp only [h3, h9, h10]
      rw [PutState_fail _ _ _ err hp]
    | none =>
      cases hg : stub.getErr tradeIndexStr with
      | some err =>
        unfold create_and_submit_trade
        rw [if_neg hlen1]
        simp only [h3, h9, h10]
        rw [PutState_ok _ _ _ hp]
        simp [ChaincodeStub.GetState, hg, hk]
      | none =>
        exact (create_and_submit_trade_effect unicodeLower now stub args q st nr hlen h3 h9 h10
          hp hg).2.2.2.1 key hk hi

theorem Query_state (stub : ChaincodeStub) (function : String) (args : List String) :
    (Query stub function args).2.state = stub.state := by
  unfold Query
  by_cases hf : function = "read"
  · rw [if_pos hf]
    unfold read
    by_cases hlen : args.length = 1
    · rw [if_neg (fun h => h hlen)]
      cases hg : stub.getErr (args.getD 0 "") with
      | none => rw [GetState_ok _ _ hg]
      | some err => rw [GetState_fail _ _ err hg]
    · rw [if_pos hlen]
  · rw [if_neg hf]

/-- C19: whatever the ledger and the arguments, and whether the call succeeds or fails,
`create_and_submit_trade` leaves every key other than the generated timestamp key and
"_tradeindex" with the value it had; and `Query` leaves every key with the value it
had, whatever the function name and the arguments. -/
theorem frame_of_create_and_Query (unicodeLower : Char → Char) (now : Int)
    (stub : ChaincodeStub) (function : String) (args : List String) (key : String) :
    (key ≠ FormatInt (makeTimestamp now) → key ≠ tradeIndexStr →
      (create_and_submit_trade unicodeLower now stub args).2.state key = stub.state key) ∧
    (Query stub function args).2.state key = stub.state key :=
  ⟨create_and_submit_trade_frame unicodeLower now stub args key,
   by rw [Query_state]⟩

theorem frame_of_create_and_Query_witness :
    (create_and_submit_trade id 1700000000000123456 mixedIndexStub sampleArgs).2.state "abc" =
      mixedIndexStub.state "abc" ∧
    (Query mixedIndexStub "read" ["_tradeindex"]).2.state "abc" = mixedIndexStub.state "abc" :=
  ⟨(frame_of_create_and_Query id 1700000000000123456 mixedIndexStub "read" sampleArgs "abc").1
      (by decide) (by decide),
   (frame_of_create_and_Query id 1700000000000123456 mixedIndexStub "read" ["_tradeindex"]
      "abc").2⟩

/-! ## `makeTimestamp` -/

/-- C20: for a clock reading of `n ≥ 0` nanoseconds, `makeTimestamp` is the integer
quotient `n / 1000000`, the divisor being `Millisecond / Nanosecond = 1000000`, and it is
monotone: a later non-negative reading never gives a smaller timestamp. -/
theorem makeTimestamp_spec (n m : Int) (hn : 0 ≤ n) (hnm : n ≤ m) :
    Millisecond.tdiv Nanosecond = 1000000 ∧
    makeTimestamp n = n / 1000000 ∧
    makeTimestamp n ≤ makeTimestamp m := by
  have hdiv : Millisecond.tdiv Nanosecond = 1000000 := by decide
  have hm : 0 ≤ m := le_trans hn hnm
  refine ⟨hdiv, ?_, ?_⟩
  · unfold makeTimestamp
    rw [hdiv, Int.tdiv_eq_ediv hn (by decide)]
  · unfold makeTimestamp
    rw [hdiv, Int.tdiv_eq_ediv hn (by decide), Int.tdiv_eq_ediv hm (by decide)]
    exact Int.ediv_le_ediv (by decide) hnm

theorem makeTimestamp_spec_witness :
    Millisecond.tdiv Nanosecond = 1000000 ∧
    makeTimestamp 1700000000000123456 = 1700000000000123456 / 1000000 ∧
    makeTimestamp 1700000000000123456 ≤ makeTimestamp 1700000000000999999 :=
  makeTimestamp_spec 1700000000000123456 1700000000000999999 (by decide) (by decide)

/-! ## Decoding an index that is not a serialized sequence of strings -/

theorem jsonUnmarshalStrings_not_array (bytes : Option String)
    (h : ∀ elems, parseJSON (bytes.getD "") ≠ some (JSONValue.array elems)) :
    (jsonUnmarshalStrings bytes).1 = none := by
  unfold jsonUnmarshalStrings
  cases hp : parseJSON (bytes.getD "") with
  | none => rfl
  | some v =>
    cases v with
    | array elems => exact absurd hp (h elems)
    | null => rfl
    | bool b => rfl
    | number l => rfl
    | string s => rfl
    | object ms => rfl

theorem jsonUnmarshalStrings_array (bytes : Option String) (elems : List JSONValue)
    (h : parseJSON (bytes.getD "") = some (JSONValue.array elems)) :
    (jsonUnmarshalStrings bytes).1 = some (elems.map stringOfElem) := by
  unfold jsonUnmarshalStrings
  rw [h]

/-- C16 as stated fails: with the index bytes `["a",1]`, which `json.Unmarshal` rejects
with an error, a valid call succeeds but does not start from the empty sequence: it
keeps "a", puts "" in the slot of the number, and appends the key. -/
theorem lenient_decode_counterexample :
    ¬ (∀ (unicodeLower : Char → Char) (now : Int) (stub : ChaincodeStub) (args : List String)
        (quantity settled needsrevision : Int),
        args.length = 11 → Atoi (args.getD 3 "") = some quantity →
        Atoi (args.getD 9 "") = some settled → Atoi (args.getD 10 "") = some needsrevision →
        noFailures stub →
        (jsonUnmarshalStrings (stub.state tradeIndexStr)).2 = true →
        (create_and_submit_trade unicodeLower now stub args).1 = Except.ok none ∧
        (create_and_submit_trade unicodeLower now stub args).2.state tradeIndexStr =
          some (jsonMarshalStrings (some [FormatInt (makeTimestamp now)]))) := by
  intro h
  have h1 := (h id 1700000000000123456 mixedIndexStub sampleArgs 100 0 1 (by decide)
    (by decide) (by decide) (by decide) ⟨fun _ => rfl, fun _ => rfl⟩ (by decide)).2
  have h2 : (create_and_submit_trade id 1700000000000123456 mixedIndexStub sampleArgs).2.state
      tradeIndexStr = some "[\"a\",\"\",\"1700000000000\"]" := by decide
  rw [h2] at h1
  exact absurd h1 (by decide)

/-- C16 amended: on a valid call whose ledger operations succeed, when the bytes under
"_tradeindex" are absent, empty, not a JSON document, or a JSON document that is not an
array, the old index counts as the empty sequence and the value written back is the
serialization of the one-element sequence of the generated key; when the bytes are a
JSON array, the old index is that array with "" in the place of every element that is
not a string, and the generated key is appended to it. -/
theorem lenient_decode (unicodeLower : Char → Char) (now : Int)
    (stub : ChaincodeStub) (args : List String) (quantity settled needsrevision : Int)
    (hlen : args.length = 11)
    (h3 : Atoi (args.getD 3 "") = some quantity)
    (h9 : Atoi (args.getD 9 "") = some settled)
    (h10 : Atoi (args.getD 10 "") = some needsrevision)
    (hputK : stub.putErr (FormatInt (makeTimestamp now)) = none)
    (hgetI : stub.getErr tradeIndexStr = none)
    (hputI : stub.putErr tradeIndexStr = none) :
    (create_and_submit_trade unicodeLower now stub args).1 = Except.ok none ∧
    ((stub.state tradeIndexStr = none ∨ stub.state tradeIndexStr = some "") →
      (create_and_submit_trade unicodeLower now stub args).2.state tradeIndexStr =
        some (jsonMarshalStrings (some [FormatInt (makeTimestamp now)]))) ∧
    ((∀ elems, parseJSON ((stub.state tradeIndexStr).getD "") ≠ some (JSONValue.array elems)) →
      (create_and_submit_trade unicodeLower now stub args).2.state tradeIndexStr =
        some (jsonMarshalStrings (some [FormatInt (makeTimestamp now)]))) ∧
    (∀ elems, parseJSON ((stub.state tradeIndexStr).getD "") = some (JSONValue.array elems) →
      (create_and_submit_trade unicodeLower now stub args).2.state tradeIndexStr =
        some (jsonMarshalStrings
          (some (elems.map stringOfElem ++ [FormatInt (makeTimestamp now)])))) := by
  obtain ⟨hok, _, hi, _, _, _⟩ := create_and_submit_trade_effect unicodeLower now stub args
    quantity settled needsrevision hlen h3 h9 h10 hputK hgetI
  have hi := hi hputI
  have hnot : (∀ elems,
      parseJSON ((stub.state tradeIndexStr).getD "") ≠ some (JSONValue.array elems)) →
      (create_and_submit_trade unicodeLower now stub args).2.state tradeIndexStr =
        some (jsonMarshalStrings (some [FormatInt (makeTimestamp now)])) := by
    intro h
    rw [hi, jsonUnmarshalStrings_not_array _ h]
    rfl
  refine ⟨hok, ?_, hnot, ?_⟩
  · intro h
    apply hnot
    intro elems
    have hempty : parseJSON "" = none := rfl
    rcases h with h | h <;> rw [h] <;> simp [hempty]
  · intro elems h
    rw [hi, jsonUnmarshalStrings_array _ elems h]
    rfl

theorem lenient_decode_witness :
    (create_and_submit_trade id 1700000000000123456 emptyStub sampleArgs).1 = Except.ok none ∧
    (create_and_submit_trade id 1700000000000123456 emptyStub sampleArgs).2.state tradeIndexStr =
      some "[\"1700000000000\"]" :=
  ⟨(lenient_decode id 1700000000000123456 emptyStub sampleArgs 100 0 1 (by decide) (by decide)
      (by decide) (by decide) rfl rfl rfl).1,
   (lenient_decode id 1700000000000123456 emptyStub sampleArgs 100 0 1 (by decide) (by decide)
      (by decide) (by decide) rfl rfl rfl).2.1 (Or.inl rfl)⟩

/-! ## The settled and needs-revision flags -/

/-- C17, the failing case: with the valid arguments `flagArgs`, whose settled flag is
"7" and whose needs-revision flag is "-3", `create_and_submit_trade` succeeds and stores
a record whose settled field is "7" and whose needsrevision field is "-3": the flags
are only required to parse as integers, although the error messages of the two checks
say "either 0 or 1". -/
theorem create_and_submit_trade_accepts_any_flag :
    flagArgs.length = 11 ∧
    Atoi (flagArgs.getD 9 "") = some 7 ∧ Atoi (flagArgs.getD 10 "") = some (-3) ∧
    (create_and_submit_trade id 1700000000000123456 emptyStub flagArgs).1 = Except.ok none ∧
    stringField ((create_and_submit_trade id 1700000000000123456 emptyStub flagArgs).2.state
      "1700000000000") "settled" = some "7" ∧
    stringField ((create_and_submit_trade id 1700000000000123456 emptyStub flagArgs).2.state
      "1700000000000") "needsrevision" = some "-3" := by
  refine ⟨by decide, by decide, by decide, rfl, by decide, by decide⟩

/-! ## The index written by `init` -/

theorem init_ok_inv (stub : ChaincodeStub) (a : String)
    (h : (init stub [a]).1 = Except.ok none) :
    ∃ n, Atoi a = some n ∧ stub.putErr "abc" = none ∧ stub.putErr tradeIndexStr = none := by
  obtain ⟨n, ha⟩ := init_ok_parses stub a h
  refine ⟨n, ha, ?_, ?_⟩
  · cases hp : stub.putErr "abc" with
    | none => rfl
    | some err =>
      have : (init stub [a]).1 = Except.error err := by
        simp [init, ha, ChaincodeStub.PutState, hp]
      rw [this] at h
      cases h
  · cases hp : stub.putErr "abc" with
    | some err =>
      have : (init stub [a]).1 = Except.error err := by
        simp [init, ha, ChaincodeStub.PutState, hp]
      rw [this] at h
      cases h
    | none =>
      cases hi : stub.putErr tradeIndexStr with
      | none => rfl
      | some err =>
        have : (init stub [a]).1 = Except.error err := by
          simp [init, ha, ChaincodeStub.PutState, hp, hi]
        rw [this] at h
        cases h

/-- Not every successful `init` leaves under "_tradeindex" the text of a JSON array with
no elements, which is what `json.Marshal` gives for a non-nil slice with no elements. -/
theorem init_index_counterexample :
    ¬ (∀ (stub : ChaincodeStub) (a : String), (init stub [a]).1 = Except.ok none →
        (init stub [a]).2.state tradeIndexStr = some "[]" ∧
        (init stub [a]).2.state tradeIndexStr = some (jsonMarshalStrings (some []))) := by
  intro h
  have h1 := (h emptyStub "5" rfl).1
  have h2 : (init emptyStub ["5"]).2.state tradeIndexStr = some "null" := by decide
  rw [h2] at h1
  exact absurd h1 (by decide)

/-- What every successful `init` does write under "_tradeindex": the JSON serialization
of the `nil` slice of strings, the text `null`.  `json.Unmarshal` decodes it without
error to a sequence with no elements, but it is not the array form that
`create_and_submit_trade` writes back, which for no elements would be `[]`. -/
theorem init_writes_null (stub : ChaincodeStub) (a : String)
    (h : (init stub [a]).1 = Except.ok none) :
    (init stub [a]).2.state tradeIndexStr = some "null" ∧
    (init stub [a]).2.state tradeIndexStr = some (jsonMarshalStrings none) ∧
    (jsonUnmarshalStrings ((init stub [a]).2.state tradeIndexStr)).2 = false ∧
    (jsonUnmarshalStrings ((init stub [a]).2.state tradeIndexStr)).1.elems = [] ∧
    jsonMarshalStrings (some []) = "[]" ∧
    (init stub [a]).2.state tradeIndexStr ≠ some (jsonMarshalStrings (some [])) := by
  obtain ⟨n, ha, hpa, hpi⟩ := init_ok_inv stub a h
  obtain ⟨_, _, hi, _, _, _⟩ := init_effect stub a n ha hpa hpi
  rw [hi]
  refine ⟨rfl, rfl, ?_, ?_, rfl, ?_⟩
  · decide
  · decide
  · decide

theorem init_writes_null_witness :
    (init emptyStub ["5"]).2.state tradeIndexStr = some "null" :=
  (init_writes_null emptyStub "5" rfl).1

/-! ## `FormatInt` writes the usual decimal numeral -/

theorem digitChar_eq_core (n : Nat) : Nat.digitChar (n % 10) = digitChar n := by
  have h : ∀ m : Nat, m < 10 → Nat.digitChar m = Char.ofNat (48 + m) := by decide
  exact h (n % 10) (Nat.mod_lt n (by decide))

theorem toDigitsCore_eq_natDigits (fuel : Nat) :
    ∀ (n : Nat) (ds : List Char), n < fuel →
      Nat.toDigitsCore 10 fuel n ds = natDigits fuel n ++ ds := by
  induction fuel with
  | zero => intro n ds h; omega
  | succ f ih =>
    intro n ds h
    unfold natDigits
    simp only [Nat.toDigitsCore, digitChar_eq_core]
    by_cases hlt : n < 10
    · have h0 : n / 10 = 0 := by omega
      rw [if_pos h0, if_pos hlt]
      rfl
    · have h0 : ¬ n / 10 = 0 := by omega
      have hdiv : n / 10 < f := by omega
      rw [if_neg h0, if_neg hlt, ih _ _ hdiv]
      simp

theorem natDigits_eq_toDigits (n : Nat) : natDigits (n + 1) n = Nat.toDigits 10 n := by
  unfold Nat.toDigits
  rw [toDigitsCore_eq_natDigits (n + 1) n [] (Nat.lt_succ_self n), List.append_nil]

/-- The text `FormatInt` writes is the decimal numeral of the integer, as Lean's own
`toString` prints it. -/
theorem FormatInt_eq_toString (i : Int) : FormatInt i = toString i := by
  cases i with
  | ofNat m =>
    have hnn : ¬ (Int.ofNat m < 0) := by simp
    unfold FormatInt
    rw [if_neg hnn]
    show String.mk (natDigits (m + 1) m) = Nat.repr m
    rw [natDigits_eq_toDigits]
    rfl
  | negSucc m =>
    have hneg : Int.negSucc m < 0 := Int.negSucc_lt_zero m
    unfold FormatInt
    rw [if_pos hneg]
    show String.mk ('-' :: natDigits (m + 1 + 1) (m + 1)) = "-" ++ Nat.repr (m + 1)
    rw [natDigits_eq_toDigits]
    rfl

/-! ## One string for the key, the timestamp field and the index entry -/

theorem makeTimestamp_range (now : Int) (hlo : - (2 : Int) ^ 63 ≤ now)
    (hhi : now ≤ (2 : Int) ^ 63 - 1) :
    - (2 : Int) ^ 63 ≤ makeTimestamp now ∧ makeTimestamp now ≤ (2 : Int) ^ 63 - 1 := by
  have hdiv : Millisecond.tdiv Nanosecond = 1000000 := by decide
  unfold makeTimestamp
  rw [hdiv]
  rcases le_or_lt 0 now with h | h
  · rw [Int.tdiv_eq_ediv h (by decide)]
    have h1 := Int.ediv_le_self 1000000 h
    have h2 := Int.ediv_nonneg h (show (0 : Int) ≤ 1000000 by decide)
    constructor <;> omega
  · have hm : 0 ≤ -now := by omega
    have e : now.tdiv 1000000 = -((-now).tdiv 1000000) := by
      rw [Int.neg_tdiv, neg_neg]
    rw [e, Int.tdiv_eq_ediv hm (by decide)]
    have h1 := Int.ediv_le_self 1000000 hm
    have h2 := Int.ediv_nonneg hm (show (0 : Int) ≤ 1000000 by decide)
    constructor <;> omega

theorem create_and_submit_trade_ok_inv (unicodeLower : Char → Char) (now : Int)
    (stub : ChaincodeStub) (args : List String)
    (hok : (create_and_submit_trade unicodeLower now stub args).1 = Except.ok none) :
    ∃ q st nr, args.length = 11 ∧ Atoi (args.getD 3 "") = some q ∧
      Atoi (args.getD 9 "") = some st ∧ Atoi (args.getD 10 "") = some nr ∧
      stub.putErr (FormatInt (makeTimestamp now)) = none ∧
      stub.getErr tradeIndexStr = none := by
  by_cases hbad : args.length ≠ 11 ∨ Atoi (args.getD 3 "") = none
      ∨ Atoi (args.getD 9 "") = none ∨ Atoi (args.getD 10 "") = none
  · obtain ⟨msg, hmsg⟩ := create_and_submit_trade_rejects unicodeLower now stub args hbad
    rw [hmsg] at hok
    cases hok
  · simp only [not_or, not_not] at hbad
    obtain ⟨hlen, h3, h9, h10⟩ := hbad
    obtain ⟨q, h3⟩ := Option.ne_none_iff_exists'.mp h3
    obtain ⟨st, h9⟩ := Option.ne_none_iff_exists'.mp h9
    obtain ⟨nr, h10⟩ := Option.ne_none_iff_exists'.mp h10
    refine ⟨q, st, nr, hlen, h3, h9, h10, ?_⟩
    cases hp : stub.putErr (FormatInt (makeTimestamp now)) with
    | some err =>
      have := (store_failures_reported unicodeLower now stub err).2.2.2.1 args q st nr
        hlen h3 h9 h10 hp
      rw [this] at hok
      cases hok
    | none =>
      refine ⟨rfl, ?_⟩
      cases hg : stub.getErr tradeIndexStr with
      | none => rfl
      | some err =>
        have := (store_failures_reported unicodeLower now stub err).2.2.2.2 args q st nr
          hlen h3 h9 h10 hp hg
        rw [this] at hok
        cases hok

theorem create_and_submit_trade_ops_exact (unicodeLower : Char → Char) (now : Int)
    (stub : ChaincodeStub) (args : List String) (quantity settled needsrevision : Int)
    (hlen : args.length = 11)
    (h3 : Atoi (args.getD 3 "") = some quantity)
    (h9 : Atoi (args.getD 9 "") = some settled)
    (h10 : Atoi (args.getD 10 "") = some needsrevision)
    (hputK : stub.putErr (FormatInt (makeTimestamp now)) = none)
    (hgetI : stub.getErr tradeIndexStr = none) :
    newOps stub (create_and_submit_trade unicodeLower now stub args).2 =
      [StubOp.put (FormatInt (makeTimestamp now))
        (tradeString (ToLower unicodeLower (args.getD 0 ""))
          (ToLower unicodeLower (args.getD 1 "")) (ToLower unicodeLower (args.getD 2 ""))
          quantity (ToLower unicodeLower (args.getD 4 "")) (ToLower unicodeLower (args.getD 5 ""))
          (ToLower unicodeLower (args.getD 6 "")) (ToLower unicodeLower (args.getD 7 ""))
          (FormatInt (makeTimestamp now)) settled needsrevision),
       StubOp.get tradeIndexStr,
       StubOp.put tradeIndexStr (jsonMarshalStrings (some
         ((jsonUnmarshalStrings (stub.state tradeIndexStr)).1.elems ++
           [FormatInt (makeTimestamp now)])))] := by
  have hne : tradeIndexStr ≠ FormatInt (makeTimestamp now) :=
    fun h => FormatInt_ne_tradeIndexStr _ h.symm
  have hlen1 : ¬ args.length ≠ 11 := fun h => h hlen
  unfold create_and_submit_trade
  rw [if_neg hlen1]
  simp only [h3, h9, h10]
  rw [PutState_ok _ _ _ hputK]
  simp only [ChaincodeStub.GetState, hgetI, if_neg hne]
  cases hputI : stub.putErr tradeIndexStr <;>
    simp [-List.getD_eq_getElem?_getD, newOps, ChaincodeStub.PutState, hputI, append]

/-- What holds of the timestamp key on every successful `create_and_submit_trade` call
with clock reading `t = makeTimestamp now` milliseconds: one string, the decimal numeral
of `t`, is the key of the `PutState` that writes the record and the key under which the
record is then stored; it stands in the "timestamp" position of the record text; and it
is the element appended to the index that is written back.  That it is also the decoded
"timestamp" field of the stored record holds only when the text fields need no
escaping. -/
theorem timestamp_key_consistent (unicodeLower : Char → Char) (now : Int)
    (stub : ChaincodeStub) (args : List String)
    (hok : (create_and_submit_trade unicodeLower now stub args).1 = Except.ok none) :
    FormatInt (makeTimestamp now) = toString (makeTimestamp now) ∧
    (- (2 : Int) ^ 63 ≤ now → now ≤ (2 : Int) ^ 63 - 1 →
      Atoi (FormatInt (makeTimestamp now)) = some (makeTimestamp now)) ∧
    ∃ quantity settled needsrevision,
      Atoi (args.getD 3 "") = some quantity ∧ Atoi (args.getD 9 "") = some settled ∧
      Atoi (args.getD 10 "") = some needsrevision ∧
      newOps stub (create_and_submit_trade unicodeLower now stub args).2 =
        [StubOp.put (FormatInt (makeTimestamp now))
          (tradeString (ToLower unicodeLower (args.getD 0 ""))
            (ToLower unicodeLower (args.getD 1 "")) (ToLower unicodeLower (args.getD 2 ""))
            quantity (ToLower unicodeLower (args.getD 4 ""))
            (ToLower unicodeLower (args.getD 5 "")) (ToLower unicodeLower (args.getD 6 ""))
            (ToLower unicodeLower (args.getD 7 "")) (FormatInt (makeTimestamp now))
            settled needsrevision),
         StubOp.get tradeIndexStr,
         StubOp.put tradeIndexStr (jsonMarshalStrings (some
           ((jsonUnmarshalStrings (stub.state tradeIndexStr)).1.elems ++
             [FormatInt (makeTimestamp now)])))] ∧
      (create_and_submit_trade unicodeLower now stub args).2.state
          (FormatInt (makeTimestamp now)) =
        some (tradeString (ToLower unicodeLower (args.getD 0 ""))
          (ToLower unicodeLower (args.getD 1 "")) (ToLower unicodeLower (args.getD 2 ""))
          quantity (ToLower unicodeLower (args.getD 4 ""))
          (ToLower unicodeLower (args.getD 5 "")) (ToLower unicodeLower (args.getD 6 ""))
          (ToLower unicodeLower (args.getD 7 "")) (FormatInt (makeTimestamp now))
          settled needsrevision) ∧
      ((∀ i ∈ [0, 1, 2, 4, 5, 6, 7],
          plainChars (ToLower unicodeLower (args.getD i "")).data = true) →
        stringField ((create_and_submit_trade unicodeLower now stub args).2.state
          (FormatInt (makeTimestamp now))) "timestamp" = some (FormatInt (makeTimestamp now))) ∧
      (stub.putErr tradeIndexStr = none →
        indexKeys (create_and_submit_trade unicodeLower now stub args).2 =
          (jsonUnmarshalStrings (stub.state tradeIndexStr)).1.elems ++
            [FormatInt (makeTimestamp now)]) := by
  obtain ⟨q, st, nr, hlen, h3, h9, h10, hputK, hgetI⟩ :=
    create_and_submit_trade_ok_inv unicodeLower now stub args hok
  refine ⟨FormatInt_eq_toString _, ?_, q, st, nr, h3, h9, h10, ?_, ?_, ?_, ?_⟩
  · intro hlo hhi
    have hr := makeTimestamp_range now hlo hhi
    exact Atoi_Itoa (makeTimestamp now) hr.1 hr.2
  · exact create_and_submit_trade_ops_exact unicodeLower now stub args q st nr hlen h3 h9 h10
      hputK hgetI
  · exact create_and_submit_trade_stores_record unicodeLower now stub args q st nr hlen h3 h9
      h10 hputK
  · intro hplain
    exact (plain_record_decodes unicodeLower now stub args q st nr hlen h3 h9 h10 hputK
      hplain).2.2.2.2.2.2.2.2.1
  · intro hputI
    have hi := (create_and_submit_trade_effect unicodeLower now stub args q st nr hlen h3 h9
      h10 hputK hgetI).2.2.1 hputI
    unfold indexKeys
    rw [hi, jsonUnmarshalStrings_jsonMarshalStrings]
    rfl

theorem timestamp_key_consistent_witness :
    FormatInt (makeTimestamp 1700000000000123456) = "1700000000000" ∧
    stringField ((create_and_submit_trade id 1700000000000123456 emptyStub sampleArgs).2.state
      "1700000000000") "timestamp" = some "1700000000000" ∧
    indexKeys (create_and_submit_trade id 1700000000000123456 emptyStub sampleArgs).2 =
      ["1700000000000"] :=
  ⟨by decide, by decide,
   by
    obtain ⟨_, _, _, _, _, _, _, _, _, hidx⟩ :=
      (timestamp_key_consistent id 1700000000000123456 emptyStub sampleArgs rfl).2.2
    exact hidx rfl⟩

/-! ## Stored bytes that differ from what the code announces -/

/-- C12, the failing case: with the valid arguments `quoteArgs` and a clock reading of
1700000000000123456 ns the call succeeds, writes the record under "1700000000000", the
decimal numeral of the clock reading in milliseconds, and appends that same string to
the index; but the record stored under that key is not a JSON document, because the
quote in the trade date is written unescaped, so the stored record has no "timestamp"
field and that field is not the key. -/
theorem timestamp_field_lost_with_quote :
    (create_and_submit_trade id 1700000000000123456 emptyStub quoteArgs).1 = Except.ok none ∧
    makeTimestamp 1700000000000123456 = 1700000000000 ∧
    FormatInt (makeTimestamp 1700000000000123456) = "1700000000000" ∧
    ((create_and_submit_trade id 1700000000000123456 emptyStub quoteArgs).2.state
      "1700000000000").isSome = true ∧
    indexKeys (create_and_submit_trade id 1700000000000123456 emptyStub quoteArgs).2 =
      ["1700000000000"] ∧
    stringField ((create_and_submit_trade id 1700000000000123456 emptyStub quoteArgs).2.state
      "1700000000000") "timestamp" = none ∧
    stringField ((create_and_submit_trade id 1700000000000123456 emptyStub quoteArgs).2.state
      "1700000000000") "timestamp" ≠ some (FormatInt (makeTimestamp 1700000000000123456)) := by
  refine ⟨rfl, by decide, by decide, by decide, by decide, by decide, by decide⟩

/-- C18, the failing case: `init` with the argument "5" on a ledger that accepts both
writes succeeds and stores under "_tradeindex" the text `null`, the serialization of the
nil slice declared by `var empty []string`.  That is not the text `[]` of a JSON array
with no elements, which is what `json.Marshal` writes for a slice with no elements
that is not nil and what `create_and_submit_trade` would write back for no elements. -/
theorem init_stores_null_not_empty_array :
    Atoi "5" = some 5 ∧
    (init emptyStub ["5"]).1 = Except.ok none ∧
    (init emptyStub ["5"]).2.state "abc" = some "5" ∧
    (init emptyStub ["5"]).2.state tradeIndexStr = some "null" ∧
    jsonMarshalStrings (some []) = "[]" ∧
    (init emptyStub ["5"]).2.state tradeIndexStr ≠ some "[]" ∧
    (init emptyStub ["5"]).2.state tradeIndexStr ≠ some (jsonMarshalStrings (some [])) := by
  refine ⟨by decide, rfl, by decide, by decide, rfl, by decide, by decide⟩

end Chaincode
